import Mathlib

/-!
Verification development for the batch generation and resumability controller
of the Riva Meta AI Generator, a browser-resident React application.

Records are association lists from column names to string values, mirroring
JavaScript objects (unique keys, property insertion order).  The mutable React
state is threaded explicitly through functions modelled from `App.tsx`
(src/unnamed/part_000) and `services/geminiService.ts` (src/unnamed/part_005).
The external generative service is an oracle `gen : Nat → List Record →
BatchResult` giving the settled outcome of the batch call for each chunk
index, and the cooperatively-read cancellation flag is a predicate
`cAt : Nat → Bool` giving the value of `isCancelledRef.current` at the check
performed before dispatching each chunk.
-/

namespace Riva

/-- A spreadsheet row: a JavaScript object modelled as an association list
from column name to string value, in property insertion order. -/
abbrev Record := List (String × String)

/-- Property read `obj[k]`: the first entry with key `k` (JavaScript objects
have unique keys), defaulting to the empty string (absent values are coerced
to empty strings by the normalizer). -/
def getField (p : Record) (k : String) : String :=
  ((p.find? (fun kv => kv.1 == k)).map (fun kv => kv.2)).getD ""

/-- Presence check `Object.prototype.hasOwnProperty.call(obj, k)`. -/
def hasField (p : Record) (k : String) : Bool :=
  p.any (fun kv => kv.1 == k)

/-- Property write `obj[k] = v` (also the object literal `{...obj, k: v}`):
overwrite in place if the key exists, append otherwise, exactly as JavaScript
property insertion order behaves. -/
def objSet (p : Record) (k v : String) : Record :=
  if p.any (fun kv => kv.1 == k) then
    p.map (fun kv => if kv.1 == k then (k, v) else kv)
  else p ++ [(k, v)]

/-- Field access `product.sku`. -/
def skuOf (p : Record) : String := getField p "sku"

/-- One generated result item: the shape of an element of the batch JSON
response array and of the single-product response object. -/
structure BatchMeta where
  sku : String
  metaTitle : String
  metaDescription : String
deriving DecidableEq, Inhabited

/-- Outcome of one `generateMetaContentForBatch` call as the orchestrator
sees it: either the returned results and token count, or a thrown error
already classified by the client (geminiService.ts lines 165-202 rethrows a
message starting with the `[QUOTA_EXCEEDED]` marker on resource exhaustion,
and a plain failure message otherwise, which App.tsx line 299 tests for). -/
inductive BatchResult where
  | success (results : List BatchMeta) (totalTokens : Nat)
  | quotaFailure (msg : String)
  | otherFailure (msg : String)
deriving DecidableEq, Inhabited

def BatchResult.isSuccess : BatchResult → Bool
  | .success _ _ => true
  | _ => false

def BatchResult.resultsOf : BatchResult → List BatchMeta
  | .success r _ => r
  | _ => []

def BatchResult.tokensOf : BatchResult → Nat
  | .success _ t => t
  | _ => 0

/-- The persisted blob stored under `riva-meta-generator-session`
(App.tsx lines 15-20). -/
structure SavedSession where
  fileName : String
  originalData : List Record
  processedData : List Record
  isResumable : Bool
deriving DecidableEq, Inhabited

/-- The React component state relevant to the orchestrator (App.tsx lines
23-36), threaded explicitly.  `session` models the localStorage blob; a file
is assumed selected, with name `fileName`. -/
structure AppState where
  fileName : String
  originalData : List Record
  processedData : List Record
  isResumable : Bool
  error : Option String
  progressMessage : Option String
  session : Option SavedSession
  regeneratingSkus : List String
deriving DecidableEq, Inhabited

/-- The quota-exhaustion banner of App.tsx line 301. -/
def quotaErrorMessage (processed total : Nat) : String :=
  "Daily token limit reached. " ++ toString processed ++ " of " ++ toString total ++
    " products were processed. You can download the partial results now or resume later when your quota is reset (midnight UTC)."

/-- App.tsx line 287. -/
def stoppedMessage : String := "Generation stopped. Ready to resume."

/-- App.tsx line 234. -/
def allProcessedMessage : String := "✓ All products have been processed!"

/-- App.tsx line 291 (token counts rendered with toString rather than the
locale-dependent toLocaleString). -/
def completeMessage (total tokens : Nat) : String :=
  "✓ Generation complete for " ++ toString total ++ " products! Tokens used: " ++ toString tokens

/-- App.tsx lines 248 and 283. -/
def processingMessage (processed total : Nat) : String :=
  "Processing... (" ++ toString processed ++ " of " ++ toString total ++ " products)"

/-- App.tsx line 379. -/
def regenQuotaMessage (sku : String) : String :=
  "Daily token limit reached. Regeneration failed for SKU " ++ sku ++
    ". Please try again later when your quota resets (midnight UTC)."

/-- saveCurrentStateToSession (App.tsx lines 90-100): writes the blob when a
file is selected (assumed here) and `originalData` is non-empty. -/
def saveCurrentStateToSession (s : AppState) (resumableFlag : Bool) : AppState :=
  if s.originalData.isEmpty then s
  else { s with session := some ⟨s.fileName, s.originalData, s.processedData, resumableFlag⟩ }

/-- The edit-sync effect (App.tsx lines 103-107): after `processedData` or
`isResumable` changes, rewrite the blob, but only when a blob already exists
in the store and `processedData` is non-empty. -/
def effectSync (s : AppState) : AppState :=
  if s.session.isSome ∧ ¬ s.processedData.isEmpty then
    { s with session := some ⟨s.fileName, s.originalData, s.processedData, s.isResumable⟩ }
  else s

/-- handleDismissSession (App.tsx lines 114-117): removes the blob. -/
def handleDismissSession (s : AppState) : AppState := { s with session := none }

/-- Fuel-indexed chunking; fuel at least the list length makes it total (each
step consumes at least one element).  Mirrors the slicing loop of App.tsx
lines 238-242 with `BATCH_SIZE = 15`. -/
def chunksOfAux : Nat → List Record → List (List Record)
  | 0, _ => []
  | _ + 1, [] => []
  | fuel + 1, x :: xs => ((x :: xs).take 15) :: chunksOfAux fuel ((x :: xs).drop 15)

/-- The chunk partition of the work list, 15 records per chunk. -/
def chunksOf15 (l : List Record) : List (List Record) := chunksOfAux l.length l

/-- Lookup in a JavaScript `Map` built by inserting every list element keyed
by its `sku` (a later insertion for the same key wins). -/
def lastMetaLookup (l : List BatchMeta) (k : String) : Option BatchMeta :=
  l.reverse.find? (fun m => m.sku == k)

/-- JavaScript `meta?.field || fallback` at App.tsx lines 268-269: both a
missing entry and an empty string are falsy. -/
def metaOr (o : Option String) : String :=
  match o with
  | some s => if s = "" then "Error: Not Generated" else s
  | none => "Error: Not Generated"

/-- One row of a processed chunk (App.tsx lines 262-271): the original record
spread together with the two generated columns. -/
def processRow (results : List BatchMeta) (p : Record) : Record :=
  let meta := lastMetaLookup results (skuOf p)
  objSet (objSet p "Meta Title" (metaOr (meta.map (fun m => m.metaTitle))))
    "Meta Description" (metaOr (meta.map (fun m => m.metaDescription)))

/-- Lookup in the merge `Map` of App.tsx lines 275-276, seeded from the
previous data and overwritten by the run results (last insertion wins). -/
def lastLookup (l : List Record) (k : String) : Option Record :=
  l.reverse.find? (fun p => skuOf p == k)

/-- The merged ordered view (App.tsx lines 274-278): `originalData` mapped
through the merged-by-sku lookup, dropping keys with no processed
counterpart (`filter(Boolean)`). -/
def mergeView (od prev crr : List Record) : List Record :=
  od.filterMap (fun og => lastLookup (prev ++ crr) (skuOf og))

/-- The state after one successful chunk merge (App.tsx lines 274-283): the
merged ordered view is stored, the edit-sync effect fires on the state
change, and the progress message is updated from the overall processed
count.  `crr2` is the value of `currentRunResults` after the chunk's rows
were pushed; `ipc` is `initialProcessedCount`. -/
def mergeStepState (s : AppState) (crr2 : List Record) (ipc : Nat) : AppState :=
  let s1 := effectSync { s with processedData := mergeView s.originalData s.processedData crr2 }
  { s1 with progressMessage := some (processingMessage (ipc + crr2.length) s.originalData.length) }

/-- The sequential chunk loop of `runGenerationProcess` (App.tsx lines
250-310) including its terminal settlement branches.  Arguments: the chunks
still to process, the index of the next chunk, the accumulated
`currentRunResults`, the `initialProcessedCount`, the accumulated
`totalTokensThisRun`, and the current state.  Returns the settled state and
the list of chunks actually dispatched to the external service. -/
def runLoop (gen : Nat → List Record → BatchResult) (cAt : Nat → Bool) :
    List (List Record) → Nat → List Record → Nat → Nat → AppState →
    AppState × List (List Record)
  | [], _, _, _, tt, s =>
    (saveCurrentStateToSession
      { s with progressMessage := some (completeMessage s.originalData.length tt) } false, [])
  | chunk :: rest, i, crr, ipc, tt, s =>
    if cAt i then
      (saveCurrentStateToSession
        { s with progressMessage := some stoppedMessage, isResumable := true } true, [])
    else if chunk.isEmpty then
      runLoop gen cAt rest (i + 1) crr ipc tt s
    else
      match gen i chunk with
      | .success results tokens =>
        let crr' := crr ++ chunk.map (processRow results)
        let next := runLoop gen cAt rest (i + 1) crr' ipc (tt + tokens)
          (mergeStepState s crr' ipc)
        (next.1, chunk :: next.2)
      | .quotaFailure _ =>
        let s1 := saveCurrentStateToSession
          { s with
            error := some (quotaErrorMessage (ipc + crr.length) s.originalData.length),
            isResumable := true } true
        ({ s1 with progressMessage := none }, [chunk])
      | .otherFailure msg =>
        ({ s with error := some msg, progressMessage := none }, [chunk])

/-- runGenerationProcess (App.tsx lines 224-311): reset error and the
resumable flag, settle immediately when there is nothing to process,
otherwise chunk the work list and run the sequential loop. -/
def runGenerationProcess (gen : Nat → List Record → BatchResult) (cAt : Nat → Bool)
    (s : AppState) (productsToProcess : List Record) : AppState × List (List Record) :=
  let s0 := { s with error := none, isResumable := false }
  if productsToProcess.isEmpty then
    ({ s0 with progressMessage := some allProcessedMessage }, [])
  else
    let msg1 := processingMessage s0.processedData.length s0.originalData.length
    let s1 := { s0 with progressMessage := some msg1 }
    runLoop gen cAt (chunksOf15 productsToProcess) 0 [] s0.processedData.length 0 s1

/-- handleGenerate (App.tsx lines 313-322): a fresh run clears the processed
state first and processes all of `originalData`. -/
def handleGenerate (gen : Nat → List Record → BatchResult) (cAt : Nat → Bool)
    (s : AppState) : AppState × List (List Record) :=
  if s.originalData.isEmpty then
    ({ s with error := some "No product data to process. Please upload a valid CSV or Excel file." }, [])
  else
    runGenerationProcess gen cAt { s with processedData := [] } s.originalData

/-- handleResume (App.tsx lines 324-329): process the records of
`originalData` whose sku is not already processed, without clearing. -/
def handleResume (gen : Nat → List Record → BatchResult) (cAt : Nat → Bool)
    (s : AppState) : AppState × List (List Record) :=
  let processedSkus := s.processedData.map skuOf
  let remaining := s.originalData.filter (fun p => !(processedSkus.contains (skuOf p)))
  runGenerationProcess gen cAt s remaining

/-- Outcome of one `generateMetaContentForSingleProduct` call, classified the
same way as the batch client (geminiService.ts lines 238-275). -/
inductive SingleResult where
  | success (res : BatchMeta) (totalTokens : Nat)
  | quotaFailure (msg : String)
  | otherFailure (msg : String)
deriving DecidableEq, Inhabited

/-- handleRegenerateRow (App.tsx lines 362-395): mark the sku in flight,
clear the banner, then on success overwrite that row's generated fields with
the result, on quota exhaustion only surface a banner, on any other failure
overwrite that row's generated fields with the regenerate sentinels; finally
clear the in-flight mark in every outcome. -/
def handleRegenerateRow (outcome : SingleResult) (s : AppState)
    (productToRegenerate : Record) : AppState :=
  let sku := skuOf productToRegenerate
  let s0 := { s with
    regeneratingSkus :=
      if s.regeneratingSkus.contains sku then s.regeneratingSkus
      else s.regeneratingSkus ++ [sku],
    error := none }
  let s1 :=
    match outcome with
    | .success res _ =>
      effectSync { s0 with processedData := s0.processedData.map (fun row =>
        if skuOf row == sku then
          objSet (objSet row "Meta Title" res.metaTitle)
            "Meta Description" res.metaDescription
        else row) }
    | .quotaFailure _ => { s0 with error := some (regenQuotaMessage sku) }
    | .otherFailure _ =>
      effectSync { s0 with processedData := s0.processedData.map (fun row =>
        if skuOf row == sku then
          objSet (objSet row "Meta Title" "Error: Regeneration failed")
            "Meta Description" "Please try again or edit manually."
        else row) }
  { s1 with regeneratingSkus := s1.regeneratingSkus.filter (fun x => !(x == sku)) }

/-- Strip previously generated fields (geminiService.ts lines 103-110 for the
batch call and 206-210 for the single call): object rest-destructuring minus
the two generated columns. -/
def stripGenerated (p : Record) : Record :=
  p.filter (fun kv => !(kv.1 == "Meta Title") && !(kv.1 == "Meta Description"))

/-- The per-record payload list serialized into the batch prompt
(geminiService.ts lines 103-119). -/
def batchRequestPayload (products : List Record) : List Record :=
  products.map stripGenerated

/-- The payload serialized into the single-product prompt (geminiService.ts
lines 206-219). -/
def singleRequestPayload (p : Record) : Record := stripGenerated p

/-- Post-processing of a batch response that parsed as a JSON array
(geminiService.ts lines 140-161): one result per input record, taken from the
returned-results map when the response covered that sku, with a synthesized
fallback entry for any sku the response omitted. -/
def batchFinalResults (products : List Record) (parsedJson : List BatchMeta) :
    List BatchMeta :=
  products.map (fun originalProduct =>
    match lastMetaLookup parsedJson (skuOf originalProduct) with
    | some result => ⟨result.sku, result.metaTitle, result.metaDescription⟩
    | none => ⟨skuOf originalProduct, "Error: No AI Response",
        "The AI did not provide a response for this item in the batch."⟩)

/-- JavaScript `String.prototype.toLowerCase`, character by character. -/
def jsToLower (s : String) : String := ⟨s.data.map Char.toLower⟩

/-- JavaScript `String.prototype.trim`: strip leading and trailing
whitespace. -/
def jsTrim (s : String) : String :=
  ⟨((s.data.dropWhile Char.isWhitespace).reverse.dropWhile Char.isWhitespace).reverse⟩

/-- Column-name canonicalization (App.tsx lines 169-176): lowercased and
trimmed header synonyms map onto the canonical fields. -/
def normKey (k : String) : String :=
  let lowerKey := jsTrim (jsToLower k)
  if lowerKey = "sku" || lowerKey = "skus" || lowerKey = "article number" then "sku"
  else if lowerKey = "name" then "name"
  else k

/-- normalizeData applied to one row (App.tsx lines 165-182): a fresh object
populated key by key in insertion order (values are already strings after the
parser's coercion). -/
def normalizeRow (row : List (String × String)) : Record :=
  row.foldl (fun acc kv => objSet acc (normKey kv.1) kv.2) []

/-- normalizeData (App.tsx lines 164-183). -/
def normalizeData (data : List (List (String × String))) : List Record :=
  data.map normalizeRow

/-- The classified result of the upload validation. -/
inductive FileValidation where
  | ok (data : List Record)
  | missingColumns
  | missingSkuValue
  | missingNameValue
deriving DecidableEq, Inhabited

/-- The validation of App.tsx lines 185-203, evaluated against the first
normalized row only; an empty dataset skips validation. -/
def validateUpload (data : List (List (String × String))) : FileValidation :=
  let normalizedData := normalizeData data
  match normalizedData with
  | [] => .ok []
  | firstRow :: _ =>
    if !(hasField firstRow "sku") || !(hasField firstRow "name") then .missingColumns
    else if getField firstRow "sku" = "" then .missingSkuValue
    else if getField firstRow "name" = "" then .missingNameValue
    else .ok normalizedData

/-- The concatenated processed rows contributed by a run's successful chunks,
replaying App.tsx lines 259-272 chunk by chunk from a starting index. -/
def runResultsConcat (gen : Nat → List Record → BatchResult) :
    Nat → List (List Record) → List Record
  | _, [] => []
  | i, c :: cs => c.map (processRow (gen i c).resultsOf) ++ runResultsConcat gen (i + 1) cs

/-- The token counts accumulated over a list of chunks. -/
def runTokens (gen : Nat → List Record → BatchResult) :
    Nat → List (List Record) → Nat
  | _, [] => 0
  | i, c :: cs => (gen i c).tokensOf + runTokens gen (i + 1) cs

/-! ### Record field lemmas -/

theorem getField_objSet_self (p : Record) (k v : String) :
    getField (objSet p k v) k = v := by
  unfold objSet getField
  by_cases h : p.any (fun kv => kv.1 == k)
  · rw [if_pos h]
    induction p with
    | nil => simp at h
    | cons kv rest ih =>
      simp only [List.any_cons, Bool.or_eq_true, beq_iff_eq] at h
      by_cases hk : kv.1 = k
      · rw [List.map_cons, if_pos (by simp [hk]), List.find?_cons_of_pos _ (by simp)]
        simp
      · rw [List.map_cons, if_neg (by simp [hk]), List.find?_cons_of_neg _ (by simp [hk])]
        exact ih (h.resolve_left hk)
  · rw [if_neg h, List.find?_append]
    have hnone : p.find? (fun kv => kv.1 == k) = none := by
      rw [List.find?_eq_none]
      intro x hx hpx
      exact h (List.any_eq_true.mpr ⟨x, hx, hpx⟩)
    rw [hnone, List.find?_cons_of_pos _ (by simp)]
    simp

theorem getField_objSet_ne (p : Record) (k v q : String) (hq : q ≠ k) :
    getField (objSet p k v) q = getField p q := by
  unfold objSet getField
  by_cases h : p.any (fun kv => kv.1 == k)
  · rw [if_pos h]
    clear h
    induction p with
    | nil => rfl
    | cons kv rest ih =>
      by_cases hk : kv.1 = k
      · rw [List.map_cons, if_pos (by simp [hk]),
          List.find?_cons_of_neg _ (by simp [Ne.symm hq]),
          List.find?_cons_of_neg _ (by simp [hk, Ne.symm hq])]
        exact ih
      · rw [List.map_cons, if_neg (by simp [hk])]
        by_cases hkq : kv.1 = q
        · rw [List.find?_cons_of_pos _ (by simp [hkq]),
            List.find?_cons_of_pos _ (by simp [hkq])]
        · rw [List.find?_cons_of_neg _ (by simp [hkq]),
            List.find?_cons_of_neg _ (by simp [hkq])]
          exact ih
  · rw [if_neg h, List.find?_append]
    by_cases hp : (p.find? (fun kv => kv.1 == q)).isSome
    · obtain ⟨a, ha⟩ := Option.isSome_iff_exists.mp hp
      rw [ha]
      rfl
    · rw [Option.not_isSome_iff_eq_none.mp hp]
      rw [List.find?_cons_of_neg _ (by simp [Ne.symm hq])]
      simp

theorem skuOf_objSet (p : Record) (k v : String) (hk : k ≠ "sku") :
    skuOf (objSet p k v) = skuOf p :=
  getField_objSet_ne p k v "sku" (fun h => hk h.symm)

theorem skuOf_processRow (results : List BatchMeta) (p : Record) :
    skuOf (processRow results p) = skuOf p := by
  unfold processRow
  rw [skuOf_objSet _ _ _ (by decide), skuOf_objSet _ _ _ (by decide)]

theorem map_skuOf_map_processRow (results : List BatchMeta) (c : List Record) :
    (c.map (processRow results)).map skuOf = c.map skuOf := by
  rw [List.map_map]
  exact List.map_congr_left (fun p _ => skuOf_processRow results p)

/-! ### Chunking lemmas -/

theorem chunksOfAux_nil (fuel : Nat) : chunksOfAux fuel [] = [] := by
  cases fuel <;> rfl

theorem chunksOfAux_congr : ∀ (f1 f2 : Nat) (l : List Record),
    l.length ≤ f1 → l.length ≤ f2 → chunksOfAux f1 l = chunksOfAux f2 l := by
  intro f1
  induction f1 with
  | zero =>
    intro f2 l h1 _
    rw [List.length_eq_zero.mp (Nat.le_zero.mp h1), chunksOfAux_nil, chunksOfAux_nil]
  | succ f ih =>
    intro f2 l h1 h2
    cases l with
    | nil => rw [chunksOfAux_nil, chunksOfAux_nil]
    | cons x xs =>
      cases f2 with
      | zero => simp at h2
      | succ f2' =>
        show _ :: _ = _ :: _
        congr 1
        exact ih f2' _ (by simp only [List.length_drop, List.length_cons] at h1 ⊢; omega) (by simp only [List.length_drop, List.length_cons] at h2 ⊢; omega)

theorem chunksOf15_cons_eq (l : List Record) (h : l ≠ []) :
    chunksOf15 l = l.take 15 :: chunksOf15 (l.drop 15) := by
  obtain ⟨x, xs, rfl⟩ := List.exists_cons_of_ne_nil h
  show chunksOfAux (xs.length + 1) (x :: xs) = _
  show _ :: chunksOfAux xs.length ((x :: xs).drop 15) = _
  congr 1
  exact chunksOfAux_congr _ _ _ (by simp only [List.length_drop, List.length_cons] at h ⊢; omega) (le_refl _)

theorem flatten_chunksOf15 : ∀ (l : List Record), (chunksOf15 l).flatten = l := by
  have aux : ∀ (fuel : Nat) (l : List Record), l.length ≤ fuel →
      (chunksOfAux fuel l).flatten = l := by
    intro fuel
    induction fuel with
    | zero =>
      intro l h
      rw [List.length_eq_zero.mp (Nat.le_zero.mp h)]
      rfl
    | succ f ih =>
      intro l h
      cases l with
      | nil => rfl
      | cons x xs =>
        show (((x :: xs).take 15) :: chunksOfAux f ((x :: xs).drop 15)).flatten = _
        rw [List.flatten_cons, ih _ (by simp only [List.length_drop, List.length_cons] at h ⊢; omega), List.take_append_drop]
  intro l
  exact aux l.length l (le_refl _)

theorem ne_nil_of_mem_chunksOf15 : ∀ (l : List Record), ∀ c ∈ chunksOf15 l, c ≠ [] := by
  have aux : ∀ (fuel : Nat) (l : List Record), l.length ≤ fuel →
      ∀ c ∈ chunksOfAux fuel l, c ≠ [] := by
    intro fuel
    induction fuel with
    | zero =>
      intro l h c hc
      rw [List.length_eq_zero.mp (Nat.le_zero.mp h), chunksOfAux_nil] at hc
      simp at hc
    | succ f ih =>
      intro l h c hc
      cases l with
      | nil => simp [chunksOfAux_nil] at hc
      | cons x xs =>
        rcases List.mem_cons.mp hc with h1 | h2
        · subst h1
          simp
        · exact ih _ (by simp only [List.length_drop, List.length_cons] at h ⊢; omega) c h2
  intro l
  exact aux l.length l (le_refl _)

theorem flatten_take_chunksOf15 : ∀ (l : List Record) (k : Nat),
    ((chunksOf15 l).take k).flatten = l.take (15 * k) := by
  have aux : ∀ (fuel : Nat) (l : List Record) (k : Nat), l.length ≤ fuel →
      ((chunksOfAux fuel l).take k).flatten = l.take (15 * k) := by
    intro fuel
    induction fuel with
    | zero =>
      intro l k h
      rw [List.length_eq_zero.mp (Nat.le_zero.mp h), chunksOfAux_nil]
      simp
    | succ f ih =>
      intro l k h
      cases l with
      | nil => simp [chunksOfAux_nil]
      | cons x xs =>
        cases k with
        | zero => simp
        | succ k' =>
          show ((((x :: xs).take 15) :: chunksOfAux f ((x :: xs).drop 15)).take (k' + 1)).flatten = _
          rw [List.take_succ_cons, List.flatten_cons, ih _ _ (by simp only [List.length_drop, List.length_cons] at h ⊢; omega),
            show 15 * (k' + 1) = 15 + 15 * k' by ring, List.take_add]
  intro l k
  exact aux l.length l k (le_refl _)

theorem mul15_lt_of_lt_chunksOf15_length : ∀ (l : List Record) (k : Nat),
    k < (chunksOf15 l).length → 15 * k < l.length := by
  have aux : ∀ (fuel : Nat) (l : List Record) (k : Nat), l.length ≤ fuel →
      k < (chunksOfAux fuel l).length → 15 * k < l.length := by
    intro fuel
    induction fuel with
    | zero =>
      intro l k h hk
      rw [List.length_eq_zero.mp (Nat.le_zero.mp h), chunksOfAux_nil] at hk
      simp at hk
    | succ f ih =>
      intro l k h hk
      cases l with
      | nil => rw [chunksOfAux_nil] at hk; simp at hk
      | cons x xs =>
        cases k with
        | zero => simp
        | succ k' =>
          have hk' : k' < (chunksOfAux f ((x :: xs).drop 15)).length := by
            have : (chunksOfAux (f + 1) (x :: xs)).length =
                (chunksOfAux f ((x :: xs).drop 15)).length + 1 := by
              show (_ :: _).length = _
              simp
            omega
          have h2 := ih _ k' (by simp only [List.length_drop, List.length_cons] at h ⊢; omega) hk'
          simp only [List.length_drop, List.length_cons] at h2 ⊢
          omega
  intro l k
  exact aux l.length l k (le_refl _)

theorem chunksOf15_eq_nil_iff (l : List Record) : chunksOf15 l = [] ↔ l = [] := by
  constructor
  · intro h
    have := flatten_chunksOf15 l
    rw [h] at this
    simpa using this.symm
  · intro h
    rw [h]
    rfl

/-! ### Lookup and merge lemmas -/

theorem lastLookup_append (l1 l2 : List Record) (k : String) :
    lastLookup (l1 ++ l2) k = (lastLookup l2 k).or (lastLookup l1 k) := by
  unfold lastLookup
  rw [List.reverse_append, List.find?_append]

theorem lastLookup_sku {l : List Record} {k : String} {p : Record}
    (h : lastLookup l k = some p) : skuOf p = k := by
  have := List.find?_some h
  simpa using this

theorem mem_of_lastLookup {l : List Record} {k : String} {p : Record}
    (h : lastLookup l k = some p) : p ∈ l := by
  have := List.mem_of_find?_eq_some h
  simpa using this

theorem lastLookup_eq_none {l : List Record} {k : String}
    (h : ∀ p ∈ l, skuOf p ≠ k) : lastLookup l k = none := by
  unfold lastLookup
  rw [List.find?_eq_none]
  intro x hx
  simp [h x (List.mem_reverse.mp hx)]

theorem lastLookup_isSome_of_mem {l : List Record} {k : String}
    (h : ∃ p ∈ l, skuOf p = k) : ∃ p, lastLookup l k = some p := by
  obtain ⟨q, hq, hqk⟩ := h
  have : (lastLookup l k).isSome = true := by
    unfold lastLookup
    rw [List.find?_isSome]
    exact ⟨q, List.mem_reverse.mpr hq, by simp [hqk]⟩
  exact Option.isSome_iff_exists.mp this

theorem lastLookup_singleton_pos {c : Record} {k : String} (h : skuOf c = k) :
    lastLookup [c] k = some c := by
  unfold lastLookup
  simp [h]

theorem mem_append_of_mem_mergeView {od prev crr : List Record} {p : Record}
    (h : p ∈ mergeView od prev crr) : p ∈ prev ∨ p ∈ crr := by
  unfold mergeView at h
  obtain ⟨og, -, heq⟩ := List.mem_filterMap.mp h
  exact List.mem_append.mp (mem_of_lastLookup heq)

theorem sku_mem_mergeView {od prev crr : List Record} {k : String}
    (hod : k ∈ od.map skuOf) (hin : k ∈ prev.map skuOf ∨ k ∈ crr.map skuOf) :
    k ∈ (mergeView od prev crr).map skuOf := by
  obtain ⟨og, hog, hogk⟩ := List.mem_map.mp hod
  have hex : ∃ p ∈ prev ++ crr, skuOf p = k := by
    rcases hin with h1 | h1
    · obtain ⟨x, hx, hxk⟩ := List.mem_map.mp h1
      exact ⟨x, List.mem_append.mpr (Or.inl hx), hxk⟩
    · obtain ⟨x, hx, hxk⟩ := List.mem_map.mp h1
      exact ⟨x, List.mem_append.mpr (Or.inr hx), hxk⟩
  obtain ⟨p, hp⟩ := lastLookup_isSome_of_mem hex
  refine List.mem_map.mpr ⟨p, ?_, lastLookup_sku hp⟩
  unfold mergeView
  refine List.mem_filterMap.mpr ⟨og, hog, ?_⟩
  rw [hogk]
  exact hp

/-- The central merge-correctness lemma: when the working set's skus are
unique, the accumulated run results cover a positional prefix of
`originalData`, and the previous view contributes no sku of `originalData`
outside the run results, then the merged ordered view is exactly the
accumulated run results. -/
theorem mergeView_eq_run : ∀ (crr od prev : List Record),
    (od.map skuOf).Nodup →
    crr.map skuOf = (od.map skuOf).take crr.length →
    (∀ x ∈ prev, skuOf x ∉ od.map skuOf ∨ skuOf x ∈ crr.map skuOf) →
    mergeView od prev crr = crr := by
  intro crr
  induction crr with
  | nil =>
    intro od prev _ _ hprev
    unfold mergeView
    rw [List.append_nil]
    rw [List.filterMap_eq_nil_iff]
    intro og hog
    apply lastLookup_eq_none
    intro p hp hpk
    rcases hprev p hp with h1 | h1
    · exact h1 (hpk ▸ List.mem_map.mpr ⟨og, hog, rfl⟩)
    · simp at h1
  | cons c cs ih =>
    intro od prev hnd htk hprev
    cases od with
    | nil => simp at htk
    | cons o os =>
      simp only [List.map_cons, List.length_cons, List.take_succ_cons] at htk
      have hco : skuOf c = skuOf o := (List.cons.injEq _ _ _ _ ▸ htk).1
      have htk' : cs.map skuOf = (os.map skuOf).take cs.length :=
        (List.cons.injEq _ _ _ _ ▸ htk).2
      have hnd' : (os.map skuOf).Nodup := (List.nodup_cons.mp (by simpa using hnd)).2
      have hno : skuOf o ∉ os.map skuOf := (List.nodup_cons.mp (by simpa using hnd)).1
      have hcs_none : lastLookup cs (skuOf o) = none := by
        apply lastLookup_eq_none
        intro p hp hpk
        apply hno
        have : skuOf p ∈ cs.map skuOf := List.mem_map.mpr ⟨p, hp, rfl⟩
        rw [htk', hpk] at this
        exact List.mem_of_mem_take this
      have hfo : lastLookup (prev ++ c :: cs) (skuOf o) = some c := by
        have hsplit : prev ++ c :: cs = (prev ++ [c]) ++ cs := by simp
        rw [hsplit, lastLookup_append, hcs_none, lastLookup_append,
          lastLookup_singleton_pos hco]
        rfl
      unfold mergeView
      rw [List.filterMap_cons, hfo]
      have htail : os.filterMap (fun og => lastLookup (prev ++ c :: cs) (skuOf og)) = cs := by
        have hsplit : prev ++ c :: cs = (prev ++ [c]) ++ cs := by simp
        rw [hsplit]
        have hprev' : ∀ x ∈ prev ++ [c],
            skuOf x ∉ os.map skuOf ∨ skuOf x ∈ cs.map skuOf := by
          intro x hx
          rcases List.mem_append.mp hx with hx1 | hx1
          · rcases hprev x hx1 with h1 | h1
            · left
              intro hmem
              exact h1 (by simp [hmem])
            · simp only [List.map_cons, List.mem_cons] at h1
              rcases h1 with h2 | h2
              · left
                rw [h2, hco]
                exact hno
              · right
                exact h2
          · left
            have : x = c := by simpa using hx1
            rw [this, hco]
            exact hno
        exact ih os (prev ++ [c]) hnd' htk' hprev'
      rw [htail]

/-! ### State helper lemmas -/

theorem BatchResult.isSuccess_iff (b : BatchResult) :
    b.isSuccess = true ↔ ∃ r t, b = .success r t := by
  cases b <;> simp [BatchResult.isSuccess]

theorem effectSync_eq (s : AppState) : ∃ ss, effectSync s = { s with session := ss } := by
  unfold effectSync
  split
  · exact ⟨_, rfl⟩
  · exact ⟨s.session, rfl⟩

theorem save_eq (s : AppState) (b : Bool) :
    ∃ ss, saveCurrentStateToSession s b = { s with session := ss } ∧
      (¬ s.originalData.isEmpty →
        ss = some ⟨s.fileName, s.originalData, s.processedData, b⟩) := by
  unfold saveCurrentStateToSession
  split
  · rename_i h
    exact ⟨s.session, rfl, fun hn => absurd h hn⟩
  · exact ⟨_, rfl, fun _ => rfl⟩

theorem mergeStepState_fileName (s : AppState) (crr2 : List Record) (ipc : Nat) :
    (mergeStepState s crr2 ipc).fileName = s.fileName := by
  unfold mergeStepState effectSync
  split <;> rfl

theorem mergeStepState_originalData (s : AppState) (crr2 : List Record) (ipc : Nat) :
    (mergeStepState s crr2 ipc).originalData = s.originalData := by
  unfold mergeStepState effectSync
  split <;> rfl

theorem mergeStepState_processedData (s : AppState) (crr2 : List Record) (ipc : Nat) :
    (mergeStepState s crr2 ipc).processedData =
      mergeView s.originalData s.processedData crr2 := by
  unfold mergeStepState effectSync
  split <;> rfl

theorem mergeStepState_error (s : AppState) (crr2 : List Record) (ipc : Nat) :
    (mergeStepState s crr2 ipc).error = s.error := by
  unfold mergeStepState effectSync
  split <;> rfl

theorem mergeStepState_isResumable (s : AppState) (crr2 : List Record) (ipc : Nat) :
    (mergeStepState s crr2 ipc).isResumable = s.isResumable := by
  unfold mergeStepState effectSync
  split <;> rfl

theorem mergeStepState_regeneratingSkus (s : AppState) (crr2 : List Record) (ipc : Nat) :
    (mergeStepState s crr2 ipc).regeneratingSkus = s.regeneratingSkus := by
  unfold mergeStepState effectSync
  split <;> rfl

/-! ### Loop lemmas -/

theorem runLoop_trace_sub (gen : Nat → List Record → BatchResult) (cAt : Nat → Bool) :
    ∀ (rest : List (List Record)) (i : Nat) (crr : List Record) (ipc tt : Nat)
      (s : AppState), ∀ c ∈ (runLoop gen cAt rest i crr ipc tt s).2, c ∈ rest := by
  intro rest
  induction rest with
  | nil =>
    intro i crr ipc tt s c hc
    simp [runLoop] at hc
  | cons chunk rest ih =>
    intro i crr ipc tt s c hc
    rw [runLoop] at hc
    by_cases h1 : cAt i
    · simp [h1] at hc
    · rw [if_neg h1] at hc
      by_cases h2 : chunk.isEmpty
      · rw [if_pos h2] at hc
        exact List.mem_cons_of_mem _ (ih _ _ _ _ _ c hc)
      · rw [if_neg h2] at hc
        cases hg : gen i chunk with
        | success r t =>
          rw [hg] at hc
          simp only at hc
          rcases List.mem_cons.mp hc with h3 | h3
          · rw [h3]
            exact List.mem_cons_self _ _
          · exact List.mem_cons_of_mem _ (ih _ _ _ _ _ c h3)
        | quotaFailure m =>
          rw [hg] at hc
          simp only [List.mem_singleton] at hc
          rw [hc]
          exact List.mem_cons_self _ _
        | otherFailure m =>
          rw [hg] at hc
          simp only [List.mem_singleton] at hc
          rw [hc]
          exact List.mem_cons_self _ _

theorem runLoop_retains (gen : Nat → List Record → BatchResult) (cAt : Nat → Bool) :
    ∀ (rest : List (List Record)) (i : Nat) (crr : List Record) (ipc tt : Nat)
      (s : AppState) (key : String),
      key ∈ s.processedData.map skuOf → key ∈ s.originalData.map skuOf →
      key ∈ ((runLoop gen cAt rest i crr ipc tt s).1).processedData.map skuOf := by
  intro rest
  induction rest with
  | nil =>
    intro i crr ipc tt s key h1 h2
    rw [runLoop]
    obtain ⟨ss, hss, -⟩ := save_eq
      { s with progressMessage := some (completeMessage s.originalData.length tt) } false
    rw [hss]
    exact h1
  | cons chunk rest ih =>
    intro i crr ipc tt s key h1 h2
    rw [runLoop]
    by_cases hc1 : cAt i
    · rw [if_pos hc1]
      obtain ⟨ss, hss, -⟩ := save_eq
        { s with progressMessage := some stoppedMessage, isResumable := true } true
      rw [hss]
      exact h1
    · rw [if_neg hc1]
      by_cases hc2 : chunk.isEmpty
      · rw [if_pos hc2]
        exact ih _ _ _ _ _ key h1 h2
      · rw [if_neg hc2]
        cases hg : gen i chunk with
        | success r t =>
          simp only
          apply ih
          · rw [mergeStepState_processedData]
            exact sku_mem_mergeView h2 (Or.inl h1)
          · rw [mergeStepState_originalData]
            exact h2
        | quotaFailure m =>
          simp only
          obtain ⟨ss, hss, -⟩ := save_eq
            { s with
              error := some (quotaErrorMessage (ipc + crr.length) s.originalData.length),
              isResumable := true } true
          rw [hss]
          exact h1
        | otherFailure m =>
          exact h1

theorem runLoop_allSuccess (gen : Nat → List Record → BatchResult) (cAt : Nat → Bool) :
    ∀ (rest : List (List Record)) (i : Nat) (crr : List Record) (ipc tt : Nat)
      (s : AppState),
    (∀ j, j < rest.length → cAt (i + j) = false) →
    (∀ j, j < rest.length → ((gen (i + j) (rest.getD j [])).isSuccess = true)) →
    (∀ c ∈ rest, c ≠ []) →
    ∃ sF : AppState,
      runLoop gen cAt rest i crr ipc tt s =
        (saveCurrentStateToSession { sF with progressMessage := some (completeMessage s.originalData.length (tt + runTokens gen i rest)) } false,
          rest) ∧
      sF.fileName = s.fileName ∧ sF.originalData = s.originalData ∧
      sF.error = s.error ∧ sF.isResumable = s.isResumable ∧
      sF.regeneratingSkus = s.regeneratingSkus ∧
      ((rest = [] ∧ sF.processedData = s.processedData) ∨
        (∃ prevL, (∀ x ∈ prevL, skuOf x ∈ s.processedData.map skuOf ∨
            skuOf x ∈ (crr ++ runResultsConcat gen i rest).map skuOf) ∧
          sF.processedData =
            mergeView s.originalData prevL (crr ++ runResultsConcat gen i rest))) := by
  intro rest
  induction rest with
  | nil =>
    intro i crr ipc tt s _ _ _
    refine ⟨s, ?_, rfl, rfl, rfl, rfl, rfl, Or.inl ⟨rfl, rfl⟩⟩
    rw [runLoop]
    rfl
  | cons chunk rest ih =>
    intro i crr ipc tt s hc hg hne
    have hc0 : cAt i = false := by
      have := hc 0 (by simp)
      simpa using this
    have hchunk : ¬ chunk.isEmpty := by
      simpa [List.isEmpty_iff] using hne chunk (List.mem_cons_self _ _)
    obtain ⟨r, t, hrt⟩ := (BatchResult.isSuccess_iff _).mp (by
      have := hg 0 (by simp)
      simpa using this)
    set pc := chunk.map (processRow r) with hpc
    set s2 := mergeStepState s (crr ++ pc) ipc with hs2
    have hs2pd : s2.processedData = mergeView s.originalData s.processedData (crr ++ pc) := by
      rw [hs2, mergeStepState_processedData]
    have hs2od : s2.originalData = s.originalData := by
      rw [hs2, mergeStepState_originalData]
    obtain ⟨sF, heq, hfn, hod, herr, hres, hreg, hpd⟩ :=
      ih (i + 1) (crr ++ pc) ipc (tt + t)
        s2
        (fun j hj => by
          have h1 := hc (j + 1) (by simpa using Nat.succ_lt_succ hj)
          have h2 : i + (j + 1) = i + 1 + j := by omega
          rw [h2] at h1
          exact h1)
        (fun j hj => by
          have h1 := hg (j + 1) (by simpa using Nat.succ_lt_succ hj)
          have h2 : i + (j + 1) = i + 1 + j := by omega
          rw [h2] at h1
          simpa using h1)
        (fun c hcm => hne c (List.mem_cons_of_mem _ hcm))
    have hrr : runResultsConcat gen i (chunk :: rest) =
        pc ++ runResultsConcat gen (i + 1) rest := by
      show chunk.map (processRow (gen i chunk).resultsOf) ++ _ = _
      rw [hrt]
      rfl
    have htok : runTokens gen i (chunk :: rest) = t + runTokens gen (i + 1) rest := by
      show (gen i chunk).tokensOf + _ = _
      rw [hrt]
      rfl
    refine ⟨sF, ?_, ?_, ?_, ?_, ?_, ?_, ?_⟩
    · rw [runLoop, if_neg (by simp [hc0]), if_neg hchunk, hrt]
      show ((runLoop gen cAt rest (i + 1) (crr ++ pc) ipc (tt + t) s2).1,
        chunk :: (runLoop gen cAt rest (i + 1) (crr ++ pc) ipc (tt + t) s2).2) = _
      rw [heq, hs2od, htok, Nat.add_assoc]
    · rw [hfn, hs2, mergeStepState_fileName]
    · rw [hod, hs2, mergeStepState_originalData]
    · rw [herr, hs2, mergeStepState_error]
    · rw [hres, hs2, mergeStepState_isResumable]
    · rw [hreg, hs2, mergeStepState_regeneratingSkus]
    · right
      rcases hpd with ⟨hrest, hpdeq⟩ | ⟨prevL, hprevL, hpdeq⟩
      · refine ⟨s.processedData, fun x hx => Or.inl (List.mem_map.mpr ⟨x, hx, rfl⟩), ?_⟩
        rw [hpdeq, hs2pd, hrr, hrest]
        simp [runResultsConcat]
      · refine ⟨prevL, ?_, ?_⟩
        · rw [hrr, ← List.append_assoc]
          intro x hx
          rcases hprevL x hx with h1 | h1
          · rw [hs2pd] at h1
            obtain ⟨y, hy, hyx⟩ := List.mem_map.mp h1
            rcases mem_append_of_mem_mergeView hy with h2 | h2
            · exact Or.inl (hyx ▸ List.mem_map.mpr ⟨y, h2, rfl⟩)
            · exact Or.inr (hyx ▸ List.mem_map.mpr ⟨y, List.mem_append.mpr (Or.inl h2), rfl⟩)
          · exact Or.inr h1
        · rw [hpdeq, hs2od, hrr, List.append_assoc]

theorem runLoop_quota (gen : Nat → List Record → BatchResult) (cAt : Nat → Bool) :
    ∀ (k : Nat) (rest : List (List Record)) (i : Nat) (crr : List Record)
      (ipc tt : Nat) (s : AppState) (m : String),
    k < rest.length →
    (∀ j, j ≤ k → cAt (i + j) = false) →
    (∀ j, j < k → ((gen (i + j) (rest.getD j [])).isSuccess = true)) →
    gen (i + k) (rest.getD k []) = .quotaFailure m →
    (∀ c ∈ rest, c ≠ []) →
    ∃ sF : AppState,
      runLoop gen cAt rest i crr ipc tt s = (sF, rest.take (k + 1)) ∧
      sF.error = some (quotaErrorMessage (ipc + (crr ++ runResultsConcat gen i (rest.take k)).length) s.originalData.length) ∧
      sF.isResumable = true ∧ sF.progressMessage = none ∧
      sF.fileName = s.fileName ∧ sF.originalData = s.originalData ∧
      (¬ s.originalData.isEmpty →
        sF.session = some ⟨s.fileName, s.originalData, sF.processedData, true⟩) ∧
      ((k = 0 ∧ sF.processedData = s.processedData) ∨
        (∃ prevL, (∀ x ∈ prevL, skuOf x ∈ s.processedData.map skuOf ∨
            skuOf x ∈ (crr ++ runResultsConcat gen i (rest.take k)).map skuOf) ∧
          sF.processedData =
            mergeView s.originalData prevL (crr ++ runResultsConcat gen i (rest.take k)))) := by
  intro k
  induction k with
  | zero =>
    intro rest i crr ipc tt s m hk hc hg hq hne
    obtain ⟨chunk, rest', rfl⟩ := List.exists_cons_of_ne_nil (List.ne_nil_of_length_pos hk)
    have hc0 : cAt i = false := by
      have := hc 0 (le_refl _)
      simpa using this
    have hchunk : ¬ chunk.isEmpty := by
      simpa [List.isEmpty_iff] using hne chunk (List.mem_cons_self _ _)
    have hq0 : gen i chunk = .quotaFailure m := by
      have := hq
      simpa using this
    set s1 := { s with error := some (quotaErrorMessage (ipc + crr.length) s.originalData.length), isResumable := true } with hs1
    obtain ⟨ss, hss, hval⟩ := save_eq s1 true
    refine ⟨{ saveCurrentStateToSession s1 true with progressMessage := none }, ?_, ?_, ?_, rfl, ?_, ?_, ?_, Or.inl ⟨rfl, ?_⟩⟩
    · rw [runLoop, if_neg (by simp [hc0]), if_neg hchunk, hq0]
      rfl
    · rw [hss, hs1]
      show some (quotaErrorMessage (ipc + crr.length) s.originalData.length) = _
      have : crr ++ runResultsConcat gen i [] = crr := by
        show crr ++ [] = crr
        simp
      rw [List.take_zero, this]
    · rw [hss, hs1]
    · rw [hss, hs1]
    · rw [hss, hs1]
    · intro hod
      rw [hss]
      show ss = _
      have hod1 : ¬ s1.originalData.isEmpty := by
        rw [hs1]
        exact hod
      rw [hval hod1, hs1]
    · rw [hss, hs1]
  | succ k ih =>
    intro rest i crr ipc tt s m hk hc hg hq hne
    obtain ⟨chunk, rest', rfl⟩ := List.exists_cons_of_ne_nil
      (List.ne_nil_of_length_pos (Nat.lt_of_le_of_lt (Nat.zero_le _) hk))
    have hc0 : cAt i = false := by
      have := hc 0 (Nat.zero_le _)
      simpa using this
    have hchunk : ¬ chunk.isEmpty := by
      simpa [List.isEmpty_iff] using hne chunk (List.mem_cons_self _ _)
    obtain ⟨r, t, hrt⟩ := (BatchResult.isSuccess_iff _).mp (by
      have := hg 0 (Nat.succ_pos _)
      simpa using this)
    set pc := chunk.map (processRow r) with hpc
    set s2 := mergeStepState s (crr ++ pc) ipc with hs2
    have hs2pd : s2.processedData = mergeView s.originalData s.processedData (crr ++ pc) := by
      rw [hs2, mergeStepState_processedData]
    have hs2od : s2.originalData = s.originalData := by
      rw [hs2, mergeStepState_originalData]
    have hs2fn : s2.fileName = s.fileName := by
      rw [hs2, mergeStepState_fileName]
    obtain ⟨sF, heq, herr, hres, hmsg, hfn, hod, hsess, hpd⟩ :=
      ih rest' (i + 1) (crr ++ pc) ipc (tt + t) s2 m
        (by simpa using Nat.lt_of_succ_lt_succ hk)
        (fun j hj => by
          have h1 := hc (j + 1) (Nat.succ_le_succ hj)
          have h2 : i + (j + 1) = i + 1 + j := by omega
          rw [h2] at h1
          exact h1)
        (fun j hj => by
          have h1 := hg (j + 1) (Nat.succ_lt_succ hj)
          have h2 : i + (j + 1) = i + 1 + j := by omega
          rw [h2] at h1
          simpa using h1)
        (by
          have h2 : i + (k + 1) = i + 1 + k := by omega
          rw [← h2]
          simpa using hq)
        (fun c hcm => hne c (List.mem_cons_of_mem _ hcm))
    have hrr : runResultsConcat gen i ((chunk :: rest').take (k + 1)) =
        pc ++ runResultsConcat gen (i + 1) (rest'.take k) := by
      rw [List.take_succ_cons]
      show chunk.map (processRow (gen i chunk).resultsOf) ++ _ = _
      rw [hrt]
      rfl
    refine ⟨sF, ?_, ?_, hres, hmsg, ?_, ?_, ?_, ?_⟩
    · rw [runLoop, if_neg (by simp [hc0]), if_neg hchunk, hrt]
      show ((runLoop gen cAt rest' (i + 1) (crr ++ pc) ipc (tt + t) s2).1,
        chunk :: (runLoop gen cAt rest' (i + 1) (crr ++ pc) ipc (tt + t) s2).2) = _
      rw [heq, List.take_succ_cons]
    · rw [herr, hs2od, hrr, ← List.append_assoc]
    · rw [hfn, hs2fn]
    · rw [hod, hs2od]
    · intro hodne
      have hodne2 : ¬ s2.originalData.isEmpty := by
        rw [hs2od]
        exact hodne
      rw [hsess hodne2, hs2fn, hs2od]
    · right
      rcases hpd with ⟨hk0, hpdeq⟩ | ⟨prevL, hprevL, hpdeq⟩
      · refine ⟨s.processedData, fun x hx => Or.inl (List.mem_map.mpr ⟨x, hx, rfl⟩), ?_⟩
        rw [hpdeq, hs2pd, hrr, hk0]
        simp [runResultsConcat]
      · refine ⟨prevL, ?_, ?_⟩
        · rw [hrr, ← List.append_assoc]
          intro x hx
          rcases hprevL x hx with h1 | h1
          · rw [hs2pd] at h1
            obtain ⟨y, hy, hyx⟩ := List.mem_map.mp h1
            rcases mem_append_of_mem_mergeView hy with h2 | h2
            · exact Or.inl (hyx ▸ List.mem_map.mpr ⟨y, h2, rfl⟩)
            · exact Or.inr (hyx ▸ List.mem_map.mpr ⟨y, List.mem_append.mpr (Or.inl h2), rfl⟩)
          · exact Or.inr h1
        · rw [hpdeq, hs2od, hrr, List.append_assoc]

theorem runLoop_cancel (gen : Nat → List Record → BatchResult) (cAt : Nat → Bool) :
    ∀ (k : Nat) (rest : List (List Record)) (i : Nat) (crr : List Record)
      (ipc tt : Nat) (s : AppState),
    k < rest.length →
    (∀ j, j < k → cAt (i + j) = false) →
    cAt (i + k) = true →
    (∀ j, j < k → ((gen (i + j) (rest.getD j [])).isSuccess = true)) →
    (∀ c ∈ rest, c ≠ []) →
    ∃ sF : AppState,
      runLoop gen cAt rest i crr ipc tt s = (sF, rest.take k) ∧
      sF.progressMessage = some stoppedMessage ∧
      sF.isResumable = true ∧ sF.error = s.error ∧
      sF.fileName = s.fileName ∧ sF.originalData = s.originalData ∧
      (¬ s.originalData.isEmpty →
        sF.session = some ⟨s.fileName, s.originalData, sF.processedData, true⟩) := by
  intro k
  induction k with
  | zero =>
    intro rest i crr ipc tt s hk hc hck hg hne
    obtain ⟨chunk, rest', rfl⟩ := List.exists_cons_of_ne_nil (List.ne_nil_of_length_pos hk)
    have hc0 : cAt i = true := by
      simpa using hck
    set s1 := { s with progressMessage := some stoppedMessage, isResumable := true } with hs1
    obtain ⟨ss, hss, hval⟩ := save_eq s1 true
    refine ⟨saveCurrentStateToSession s1 true, ?_, ?_, ?_, ?_, ?_, ?_, ?_⟩
    · rw [runLoop, if_pos (by simp [hc0])]
      rfl
    · rw [hss, hs1]
    · rw [hss, hs1]
    · rw [hss, hs1]
    · rw [hss, hs1]
    · rw [hss, hs1]
    · intro hod
      rw [hss]
      show ss = _
      have hod1 : ¬ s1.originalData.isEmpty := by
        rw [hs1]
        exact hod
      rw [hval hod1, hs1]
  | succ k ih =>
    intro rest i crr ipc tt s hk hc hck hg hne
    obtain ⟨chunk, rest', rfl⟩ := List.exists_cons_of_ne_nil
      (List.ne_nil_of_length_pos (Nat.lt_of_le_of_lt (Nat.zero_le _) hk))
    have hc0 : cAt i = false := by
      have := hc 0 (Nat.succ_pos _)
      simpa using this
    have hchunk : ¬ chunk.isEmpty := by
      simpa [List.isEmpty_iff] using hne chunk (List.mem_cons_self _ _)
    obtain ⟨r, t, hrt⟩ := (BatchResult.isSuccess_iff _).mp (by
      have := hg 0 (Nat.succ_pos _)
      simpa using this)
    set pc := chunk.map (processRow r) with hpc
    set s2 := mergeStepState s (crr ++ pc) ipc with hs2
    have hs2od : s2.originalData = s.originalData := by
      rw [hs2, mergeStepState_originalData]
    have hs2fn : s2.fileName = s.fileName := by
      rw [hs2, mergeStepState_fileName]
    have hs2err : s2.error = s.error := by
      rw [hs2, mergeStepState_error]
    obtain ⟨sF, heq, hmsg, hres, herr, hfn, hod, hsess⟩ :=
      ih rest' (i + 1) (crr ++ pc) ipc (tt + t) s2
        (by simpa using Nat.lt_of_succ_lt_succ hk)
        (fun j hj => by
          have h1 := hc (j + 1) (Nat.succ_lt_succ hj)
          have h2 : i + (j + 1) = i + 1 + j := by omega
          rw [h2] at h1
          exact h1)
        (by
          have h2 : i + (k + 1) = i + 1 + k := by omega
          rw [← h2]
          exact hck)
        (fun j hj => by
          have h1 := hg (j + 1) (Nat.succ_lt_succ hj)
          have h2 : i + (j + 1) = i + 1 + j := by omega
          rw [h2] at h1
          simpa using h1)
        (fun c hcm => hne c (List.mem_cons_of_mem _ hcm))
    refine ⟨sF, ?_, hmsg, hres, ?_, ?_, ?_, ?_⟩
    · rw [runLoop, if_neg (by simp [hc0]), if_neg hchunk, hrt]
      show ((runLoop gen cAt rest' (i + 1) (crr ++ pc) ipc (tt + t) s2).1,
        chunk :: (runLoop gen cAt rest' (i + 1) (crr ++ pc) ipc (tt + t) s2).2) = _
      rw [heq, List.take_succ_cons]
    · rw [herr, hs2err]
    · rw [hfn, hs2fn]
    · rw [hod, hs2od]
    · intro hodne
      have hodne2 : ¬ s2.originalData.isEmpty := by
        rw [hs2od]
        exact hodne
      rw [hsess hodne2, hs2fn, hs2od]

theorem runLoop_fail_head (gen : Nat → List Record → BatchResult) (cAt : Nat → Bool)
    (chunk : List Record) (rest : List (List Record)) (i : Nat) (crr : List Record)
    (ipc tt : Nat) (s : AppState) (m : String)
    (hc0 : cAt i = false) (hchunk : chunk ≠ [])
    (hq : gen i chunk = .otherFailure m) :
    runLoop gen cAt (chunk :: rest) i crr ipc tt s =
      ({ s with error := some m, progressMessage := none }, [chunk]) := by
  rw [runLoop, if_neg (by simp [hc0]),
    if_neg (by simpa [List.isEmpty_iff] using hchunk), hq]

theorem length_runResultsConcat (gen : Nat → List Record → BatchResult) :
    ∀ (i : Nat) (cs : List (List Record)),
    (runResultsConcat gen i cs).length = cs.flatten.length := by
  intro i cs
  induction cs generalizing i with
  | nil => rfl
  | cons c cs ih =>
    show (c.map (processRow (gen i c).resultsOf) ++ _).length = (c ++ cs.flatten).length
    simp [ih]

theorem map_skuOf_runResultsConcat (gen : Nat → List Record → BatchResult) :
    ∀ (i : Nat) (cs : List (List Record)),
    (runResultsConcat gen i cs).map skuOf = cs.flatten.map skuOf := by
  intro i cs
  induction cs generalizing i with
  | nil => rfl
  | cons c cs ih =>
    show (c.map (processRow (gen i c).resultsOf) ++ _).map skuOf = (c ++ cs.flatten).map skuOf
    rw [List.map_append, List.map_append, ih, map_skuOf_map_processRow]

/-! ### Generation-client lemmas -/

theorem lastMetaLookup_sku {l : List BatchMeta} {k : String} {m : BatchMeta}
    (h : lastMetaLookup l k = some m) : m.sku = k := by
  have := List.find?_some h
  simpa using this

theorem lastMetaLookup_eq_none {l : List BatchMeta} {k : String}
    (h : k ∉ l.map (fun m => m.sku)) : lastMetaLookup l k = none := by
  unfold lastMetaLookup
  rw [List.find?_eq_none]
  intro x hx
  simp only [beq_iff_eq]
  intro hxk
  exact h (List.mem_map.mpr ⟨x, List.mem_reverse.mp hx, hxk⟩)

theorem stripGenerated_objSet (p : Record) (k v : String)
    (hk : k = "Meta Title" ∨ k = "Meta Description") :
    stripGenerated (objSet p k v) = stripGenerated p := by
  unfold objSet stripGenerated
  by_cases h : p.any (fun kv => kv.1 == k)
  · rw [if_pos h]
    clear h
    induction p with
    | nil => rfl
    | cons kv rest ih =>
      rw [List.map_cons]
      by_cases hkv : kv.1 = k
      · rcases hk with h1 | h1 <;> subst h1 <;>
          simp [List.filter_cons, hkv] <;> simpa using ih
      · simp only [List.filter_cons, if_neg (show ¬((kv.1 == k) = true) by simp [hkv])]
        rw [ih]
  · rw [if_neg h, List.filter_append]
    have hsingle : List.filter
        (fun kv => !(kv.1 == "Meta Title") && !(kv.1 == "Meta Description")) [(k, v)] = [] := by
      rcases hk with h1 | h1 <;> subst h1 <;> simp
    rw [hsingle, List.append_nil]

/-! ### Claim theorems -/

/-- Claim C5: for every input chunk and every service response that parsed as
a JSON array, the successful batch outcome has exactly one result per input
record, keyed by that record's sku (output length equals input length), and
for any input sku the response omits, a fallback result carrying the sentinel
text `Error: No AI Response` is synthesized instead of shrinking the output
set. -/
theorem claim_C5_batch_outcome_one_result_per_record (products : List Record)
    (parsedJson : List BatchMeta) :
    (batchFinalResults products parsedJson).length = products.length ∧
    (batchFinalResults products parsedJson).map (fun r => r.sku) = products.map skuOf ∧
    (∀ i, i < products.length →
      skuOf (products.getD i []) ∉ parsedJson.map (fun r => r.sku) →
      (batchFinalResults products parsedJson).getD i default =
        ⟨skuOf (products.getD i []), "Error: No AI Response",
          "The AI did not provide a response for this item in the batch."⟩) := by
  refine ⟨by simp [batchFinalResults], ?_, ?_⟩
  · unfold batchFinalResults
    rw [List.map_map]
    apply List.map_congr_left
    intro p _
    cases hm : lastMetaLookup parsedJson (skuOf p) with
    | some result => simp [hm, lastMetaLookup_sku hm]
    | none => simp [hm]
  · intro i hi hnot
    have hlen : i < (batchFinalResults products parsedJson).length := by
      simpa [batchFinalResults] using hi
    rw [List.getD_eq_getElem _ _ hlen]
    rw [List.getD_eq_getElem _ _ hi] at hnot ⊢
    unfold batchFinalResults
    rw [List.getElem_map, lastMetaLookup_eq_none hnot]

/-- Claim C8: previously generated fields are stripped from every record
before serialization into the request, for both the batch call and the
single-product call, so the payload is identical regardless of the prior
values of those fields and never contains them. -/
theorem claim_C8_prior_output_stripped_from_requests :
    (∀ (p : Record) (k v : String), (k = "Meta Title" ∨ k = "Meta Description") →
      stripGenerated (objSet p k v) = stripGenerated p) ∧
    (∀ (products : List Record) (f g : Record → String),
      batchRequestPayload (products.map (fun p =>
        objSet (objSet p "Meta Title" (f p)) "Meta Description" (g p))) =
        batchRequestPayload products) ∧
    (∀ (p : Record) (t d : String),
      singleRequestPayload (objSet (objSet p "Meta Title" t) "Meta Description" d) =
        singleRequestPayload p) ∧
    (∀ (p : Record), ∀ kv ∈ singleRequestPayload p,
      kv.1 ≠ "Meta Title" ∧ kv.1 ≠ "Meta Description") := by
  have hsingle : ∀ (p : Record) (t d : String),
      stripGenerated (objSet (objSet p "Meta Title" t) "Meta Description" d) =
        stripGenerated p := by
    intro p t d
    rw [stripGenerated_objSet _ _ _ (Or.inr rfl), stripGenerated_objSet _ _ _ (Or.inl rfl)]
  refine ⟨fun p k v hk => stripGenerated_objSet p k v hk, ?_, hsingle, ?_⟩
  · intro products f g
    unfold batchRequestPayload
    rw [List.map_map]
    apply List.map_congr_left
    intro p _
    exact hsingle p (f p) (g p)
  · intro p kv hkv
    unfold singleRequestPayload stripGenerated at hkv
    have hmem := List.mem_filter.mp hkv
    constructor
    · intro hEq
      have hb := hmem.2
      rw [hEq] at hb
      simp at hb
    · intro hEq
      have hb := hmem.2
      rw [hEq] at hb
      simp at hb

/-- Claim C9: a column whose lowercased, trimmed header is `sku`, `skus`, or
`article number` is mapped onto the canonical key field, and upload
validation is evaluated against the first row only: it fails with the
missing-required-value outcome when the first row's key or name value is
empty regardless of the later rows, and succeeds when the first row has both
values present and non-empty regardless of emptiness in later rows. -/
theorem claim_C9_normalizer_and_first_row_validation :
    (∀ (h v : String),
      (jsTrim (jsToLower h) = "sku" ∨ jsTrim (jsToLower h) = "skus" ∨
        jsTrim (jsToLower h) = "article number") →
      getField (normalizeRow [(h, v)]) "sku" = v) ∧
    (∀ (r0 : List (String × String)) (rest : List (List (String × String))),
      hasField (normalizeRow r0) "sku" = true →
      hasField (normalizeRow r0) "name" = true →
      getField (normalizeRow r0) "sku" = "" →
      validateUpload (r0 :: rest) = .missingSkuValue) ∧
    (∀ (r0 : List (String × String)) (rest : List (List (String × String))),
      hasField (normalizeRow r0) "sku" = true →
      hasField (normalizeRow r0) "name" = true →
      getField (normalizeRow r0) "sku" ≠ "" →
      getField (normalizeRow r0) "name" = "" →
      validateUpload (r0 :: rest) = .missingNameValue) ∧
    (∀ (r0 : List (String × String)) (rest : List (List (String × String))),
      hasField (normalizeRow r0) "sku" = true →
      hasField (normalizeRow r0) "name" = true →
      getField (normalizeRow r0) "sku" ≠ "" →
      getField (normalizeRow r0) "name" ≠ "" →
      validateUpload (r0 :: rest) = .ok (normalizeData (r0 :: rest))) := by
  have hcons : ∀ (r0 : List (String × String)) (rest : List (List (String × String))),
      validateUpload (r0 :: rest) =
        (if !(hasField (normalizeRow r0) "sku") || !(hasField (normalizeRow r0) "name") then
          FileValidation.missingColumns
        else if getField (normalizeRow r0) "sku" = "" then FileValidation.missingSkuValue
        else if getField (normalizeRow r0) "name" = "" then FileValidation.missingNameValue
        else FileValidation.ok (normalizeData (r0 :: rest))) := fun _ _ => rfl
  refine ⟨?_, ?_, ?_, ?_⟩
  · intro h v hcond
    have hnk : normKey h = "sku" := by
      unfold normKey
      rcases hcond with h1 | h1 | h1 <;> simp [h1]
    show getField (objSet [] (normKey h) v) "sku" = v
    rw [hnk]
    exact getField_objSet_self [] "sku" v
  · intro r0 rest h1 h2 h3
    rw [hcons, if_neg (by simp [h1, h2]), if_pos h3]
  · intro r0 rest h1 h2 h3 h4
    rw [hcons, if_neg (by simp [h1, h2]), if_neg h3, if_pos h4]
  · intro r0 rest h1 h2 h3 h4
    rw [hcons, if_neg (by simp [h1, h2]), if_neg h3, if_neg h4]

/-- Claim C10: an empty work set settles immediately with the all-processed
completion message, dispatches no chunk to the generation service, leaves
the processed records unchanged, and resets the resumable flag to false; in
particular resume does so when every original sku is already processed. -/
theorem claim_C10_empty_work_settles_immediately :
    (∀ (gen : Nat → List Record → BatchResult) (cAt : Nat → Bool) (s : AppState),
      runGenerationProcess gen cAt s [] =
        ({ s with error := none, isResumable := false, progressMessage := some allProcessedMessage }, [])) ∧
    (∀ (gen : Nat → List Record → BatchResult) (cAt : Nat → Bool) (s : AppState),
      (∀ p ∈ s.originalData, skuOf p ∈ s.processedData.map skuOf) →
      handleResume gen cAt s =
        ({ s with error := none, isResumable := false, progressMessage := some allProcessedMessage }, [])) := by
  constructor
  · intro gen cAt s
    rfl
  · intro gen cAt s h
    have hrem : s.originalData.filter
        (fun p => !((s.processedData.map skuOf).contains (skuOf p))) = [] := by
      rw [List.filter_eq_nil_iff]
      intro p hp
      have := h p hp
      simp [this]
    show runGenerationProcess gen cAt s
      (s.originalData.filter (fun p => !((s.processedData.map skuOf).contains (skuOf p)))) = _
    rw [hrem]
    rfl

theorem effectSync_processedData (s : AppState) :
    (effectSync s).processedData = s.processedData := by
  unfold effectSync
  split <;> rfl

theorem effectSync_regeneratingSkus (s : AppState) :
    (effectSync s).regeneratingSkus = s.regeneratingSkus := by
  unfold effectSync
  split <;> rfl

theorem handleRegenerateRow_other_processedData (s : AppState) (p : Record) (m : String) :
    (handleRegenerateRow (.otherFailure m) s p).processedData =
      s.processedData.map (fun row => if skuOf row == skuOf p then
        objSet (objSet row "Meta Title" "Error: Regeneration failed")
          "Meta Description" "Please try again or edit manually."
        else row) := by
  show (effectSync _).processedData = _
  rw [effectSync_processedData]

theorem handleRegenerateRow_quota_processedData (s : AppState) (p : Record) (m : String) :
    (handleRegenerateRow (.quotaFailure m) s p).processedData = s.processedData := rfl

theorem handleRegenerateRow_not_mem_regenerating (outcome : SingleResult) (s : AppState)
    (p : Record) :
    skuOf p ∉ (handleRegenerateRow outcome s p).regeneratingSkus := by
  have key : ∀ (l : List String), skuOf p ∉ l.filter (fun x => !(x == skuOf p)) := by
    intro l hmem
    have := (List.mem_filter.mp hmem).2
    simp at this
  cases outcome with
  | success res tok =>
    show skuOf p ∉ (effectSync _).regeneratingSkus.filter _
    rw [effectSync_regeneratingSkus]
    exact key _
  | quotaFailure m => exact key _
  | otherFailure m =>
    show skuOf p ∉ (effectSync _).regeneratingSkus.filter _
    rw [effectSync_regeneratingSkus]
    exact key _

/-- Claim C6: a regenerate call that fails with a non-quota error leaves
every row with a different sku byte-identical to before and overwrites only
the target row's generated fields with the regenerate-specific sentinels,
which are distinct from the batch-omission sentinel; a quota failure leaves
the processed records entirely unchanged; and the in-flight marker for the
sku is cleared in every outcome. -/
theorem claim_C6_regenerate_isolation (s : AppState) (p : Record) :
    (∀ m : String,
      ((handleRegenerateRow (.otherFailure m) s p).processedData.length = s.processedData.length) ∧
      (∀ i, i < s.processedData.length →
        (skuOf (s.processedData.getD i []) ≠ skuOf p →
          (handleRegenerateRow (.otherFailure m) s p).processedData.getD i [] =
            s.processedData.getD i []) ∧
        (skuOf (s.processedData.getD i []) = skuOf p →
          getField ((handleRegenerateRow (.otherFailure m) s p).processedData.getD i []) "Meta Title" = "Error: Regeneration failed" ∧
          getField ((handleRegenerateRow (.otherFailure m) s p).processedData.getD i []) "Meta Description" = "Please try again or edit manually." ∧
          (∀ f1 : String, f1 ≠ "Meta Title" → f1 ≠ "Meta Description" →
            getField ((handleRegenerateRow (.otherFailure m) s p).processedData.getD i []) f1 =
              getField (s.processedData.getD i []) f1)))) ∧
    ("Error: Regeneration failed" ≠ "Error: No AI Response") ∧
    (∀ m : String, (handleRegenerateRow (.quotaFailure m) s p).processedData = s.processedData) ∧
    (∀ outcome : SingleResult, skuOf p ∉ (handleRegenerateRow outcome s p).regeneratingSkus) := by
  refine ⟨?_, by decide, fun m => handleRegenerateRow_quota_processedData s p m, ?_⟩
  · intro m
    rw [handleRegenerateRow_other_processedData]
    constructor
    · exact List.length_map _ _
    · intro i hi
      have hlen : i < (s.processedData.map (fun row => if skuOf row == skuOf p then
          objSet (objSet row "Meta Title" "Error: Regeneration failed")
            "Meta Description" "Please try again or edit manually."
          else row)).length := by
        simpa using hi
      rw [List.getD_eq_getElem _ _ hlen, List.getD_eq_getElem _ _ hi, List.getElem_map]
      constructor
      · intro hne
        rw [if_neg (by simp [hne])]
      · intro heq
        rw [if_pos (by simp [heq])]
        refine ⟨?_, getField_objSet_self _ _ _, ?_⟩
        · rw [getField_objSet_ne _ _ _ _ (by decide)]
          exact getField_objSet_self _ _ _
        · intro f1 ht hd
          rw [getField_objSet_ne _ _ _ _ hd, getField_objSet_ne _ _ _ _ ht]
  · intro outcome
    exact handleRegenerateRow_not_mem_regenerating outcome s p

theorem runGenerationProcess_eq_runLoop (gen : Nat → List Record → BatchResult)
    (cAt : Nat → Bool) (s : AppState) (pts : List Record) (hne : ¬ pts.isEmpty) :
    runGenerationProcess gen cAt s pts =
      runLoop gen cAt (chunksOf15 pts) 0 [] s.processedData.length 0
        { s with error := none, isResumable := false, progressMessage := some (processingMessage s.processedData.length s.originalData.length) } := by
  unfold runGenerationProcess
  rw [if_neg hne]

theorem handleGenerate_eq_runLoop (gen : Nat → List Record → BatchResult)
    (cAt : Nat → Bool) (s : AppState) (hne : ¬ s.originalData.isEmpty) :
    handleGenerate gen cAt s =
      runLoop gen cAt (chunksOf15 s.originalData) 0 [] 0 0
        { s with processedData := [], error := none, isResumable := false, progressMessage := some (processingMessage 0 s.originalData.length) } := by
  unfold handleGenerate
  rw [if_neg hne, runGenerationProcess_eq_runLoop gen cAt _ _ hne]
  rfl

/-- Claim C2: for every non-empty record list with unique, non-empty keys, a
fresh start that runs to the completed outcome with every batch call
succeeding yields processed records with the same length as the original
records, the same sku sequence in the same order, each original key exactly
once, and the run settles as completed: no error, not resumable, completion
message, every chunk dispatched. -/
theorem claim_C2_completed_run_covers_all_keys
    (gen : Nat → List Record → BatchResult) (cAt : Nat → Bool) (s : AppState)
    (hne : s.originalData ≠ [])
    (hnd : (s.originalData.map skuOf).Nodup)
    (hkeys : ∀ p ∈ s.originalData, skuOf p ≠ "")
    (hc : ∀ i, cAt i = false)
    (hg : ∀ j, j < (chunksOf15 s.originalData).length →
      ((gen j ((chunksOf15 s.originalData).getD j [])).isSuccess = true)) :
    ((handleGenerate gen cAt s).1).processedData.map skuOf = s.originalData.map skuOf ∧
    ((handleGenerate gen cAt s).1).processedData.length = s.originalData.length ∧
    (∀ key ∈ s.originalData.map skuOf,
      (((handleGenerate gen cAt s).1).processedData.map skuOf).count key = 1) ∧
    ((handleGenerate gen cAt s).1).error = none ∧
    ((handleGenerate gen cAt s).1).isResumable = false ∧
    ((handleGenerate gen cAt s).1).progressMessage =
      some (completeMessage s.originalData.length (runTokens gen 0 (chunksOf15 s.originalData))) ∧
    (handleGenerate gen cAt s).2 = chunksOf15 s.originalData := by
  have hne' : ¬ s.originalData.isEmpty := by simpa [List.isEmpty_iff] using hne
  rw [handleGenerate_eq_runLoop gen cAt s hne']
  set s1 : AppState := { s with processedData := [], error := none, isResumable := false, progressMessage := some (processingMessage 0 s.originalData.length) } with hs1
  obtain ⟨sF, heq, hfn, hod, herr, hres, hreg, hpd⟩ :=
    runLoop_allSuccess gen cAt (chunksOf15 s.originalData) 0 [] 0 0 s1
      (fun j _ => hc (0 + j))
      (fun j hj => by
        have := hg j hj
        simpa using this)
      (ne_nil_of_mem_chunksOf15 s.originalData)
  rw [heq]
  have hs1od : s1.originalData = s.originalData := rfl
  have hs1pd : s1.processedData = [] := rfl
  set rc := runResultsConcat gen 0 (chunksOf15 s.originalData) with hrc
  have hchne : chunksOf15 s.originalData ≠ [] := by
    rw [Ne, chunksOf15_eq_nil_iff]
    exact hne
  have hpdeq : sF.processedData = rc := by
    rcases hpd with ⟨habs, -⟩ | ⟨prevL, hprevL, hpdeq⟩
    · exact absurd habs hchne
    · have hrcsku : rc.map skuOf = s.originalData.map skuOf := by
        rw [hrc, map_skuOf_runResultsConcat, flatten_chunksOf15]
      have hrclen : rc.length = s.originalData.length := by
        have := congrArg List.length hrcsku
        simpa using this
      have htk : rc.map skuOf = (s.originalData.map skuOf).take rc.length := by
        rw [hrcsku, hrclen, ← List.length_map s.originalData skuOf, List.take_length]
      have hprev : ∀ x ∈ prevL, skuOf x ∉ s.originalData.map skuOf ∨
          skuOf x ∈ rc.map skuOf := by
        intro x hx
        rcases hprevL x hx with h1 | h1
        · rw [hs1pd] at h1
          simp at h1
        · right
          simpa using h1
      have := mergeView_eq_run rc s.originalData prevL hnd htk hprev
      rw [hpdeq, hs1od]
      have hnilrc : ([] : List Record) ++ rc = rc := by simp
      rw [hnilrc]
      exact this
  obtain ⟨ss2, hss2, -⟩ := save_eq { sF with progressMessage := some (completeMessage s1.originalData.length (0 + runTokens gen 0 (chunksOf15 s.originalData))) } false
  rw [hss2]
  have hrcsku : rc.map skuOf = s.originalData.map skuOf := by
    rw [hrc, map_skuOf_runResultsConcat, flatten_chunksOf15]
  refine ⟨?_, ?_, ?_, ?_, ?_, ?_, rfl⟩
  · show sF.processedData.map skuOf = _
    rw [hpdeq, hrcsku]
  · show sF.processedData.length = _
    rw [hpdeq]
    have := congrArg List.length hrcsku
    simpa using this
  · intro key hkey
    show (sF.processedData.map skuOf).count key = 1
    rw [hpdeq, hrcsku]
    exact List.count_eq_one_of_mem hnd hkey
  · show sF.error = none
    rw [herr]
  · show sF.isResumable = false
    rw [hres]
  · show some (completeMessage s1.originalData.length (0 + runTokens gen 0 (chunksOf15 s.originalData))) = _
    rw [hs1od]
    norm_num

/-- Claim C1: for every fresh run whose records are partitioned into chunks
of 15, if the batch call for a later chunk `k` fails with a quota error
after chunks `0..k-1` succeeded, with no cancellation, the run settles with
the processed records being exactly the results of the successful chunks
(`15 * k` entries), the resumable flag set to true, a partial session
snapshot persisted, and the quota banner reporting the processed count out
of the total. -/
theorem claim_C1_quota_settles_with_successful_chunks
    (gen : Nat → List Record → BatchResult) (cAt : Nat → Bool) (s : AppState)
    (k : Nat) (m : String)
    (hnd : (s.originalData.map skuOf).Nodup)
    (hk1 : 1 ≤ k)
    (hk : k < (chunksOf15 s.originalData).length)
    (hc : ∀ j, j ≤ k → cAt j = false)
    (hg : ∀ j, j < k → ((gen j ((chunksOf15 s.originalData).getD j [])).isSuccess = true))
    (hq : gen k ((chunksOf15 s.originalData).getD k []) = .quotaFailure m) :
    ((handleGenerate gen cAt s).1).processedData =
      runResultsConcat gen 0 ((chunksOf15 s.originalData).take k) ∧
    ((handleGenerate gen cAt s).1).processedData.length = 15 * k ∧
    ((handleGenerate gen cAt s).1).isResumable = true ∧
    ((handleGenerate gen cAt s).1).error =
      some (quotaErrorMessage (15 * k) s.originalData.length) ∧
    ((handleGenerate gen cAt s).1).session =
      some ⟨s.fileName, s.originalData, ((handleGenerate gen cAt s).1).processedData, true⟩ ∧
    (handleGenerate gen cAt s).2 = (chunksOf15 s.originalData).take (k + 1) := by
  have hchne : chunksOf15 s.originalData ≠ [] :=
    List.ne_nil_of_length_pos (Nat.lt_of_le_of_lt (Nat.zero_le _) hk)
  have hne : s.originalData ≠ [] := by
    intro habs
    exact hchne ((chunksOf15_eq_nil_iff _).mpr habs)
  have hne' : ¬ s.originalData.isEmpty := by simpa [List.isEmpty_iff] using hne
  rw [handleGenerate_eq_runLoop gen cAt s hne']
  set s1 : AppState := { s with processedData := [], error := none, isResumable := false, progressMessage := some (processingMessage 0 s.originalData.length) } with hs1
  obtain ⟨sF, heq, herr, hres, hmsg, hfn, hod, hsess, hpd⟩ :=
    runLoop_quota gen cAt k (chunksOf15 s.originalData) 0 [] 0 0 s1 m hk
      (fun j hj => hc (0 + j) (by simpa using hj))
      (fun j hj => by
        have := hg j hj
        simpa using this)
      (by simpa using hq)
      (ne_nil_of_mem_chunksOf15 s.originalData)
  rw [heq]
  have hs1od : s1.originalData = s.originalData := rfl
  have hs1fn : s1.fileName = s.fileName := rfl
  have hs1pd : s1.processedData = [] := rfl
  set rck := runResultsConcat gen 0 ((chunksOf15 s.originalData).take k) with hrck
  have h15k : 15 * k < s.originalData.length := mul15_lt_of_lt_chunksOf15_length _ _ hk
  have hrcsku : rck.map skuOf = (s.originalData.map skuOf).take (15 * k) := by
    rw [hrck, map_skuOf_runResultsConcat, flatten_take_chunksOf15, List.map_take]
  have hrclen : rck.length = 15 * k := by
    have := congrArg List.length hrcsku
    simp only [List.length_map, List.length_take] at this
    rw [this]
    omega
  have hpdeq : sF.processedData = rck := by
    rcases hpd with ⟨habs, -⟩ | ⟨prevL, hprevL, hpdeq⟩
    · omega
    · have htk : rck.map skuOf = (s.originalData.map skuOf).take rck.length := by
        rw [hrclen, hrcsku]
      have hprev : ∀ x ∈ prevL, skuOf x ∉ s.originalData.map skuOf ∨
          skuOf x ∈ rck.map skuOf := by
        intro x hx
        rcases hprevL x hx with h1 | h1
        · rw [hs1pd] at h1
          simp at h1
        · right
          simpa using h1
      have := mergeView_eq_run rck s.originalData prevL hnd htk hprev
      rw [hpdeq, hs1od]
      have hnilrc : ([] : List Record) ++ rck = rck := by simp
      rw [hnilrc]
      exact this
  refine ⟨hpdeq, ?_, hres, ?_, ?_, rfl⟩
  · rw [hpdeq, hrclen]
  · rw [herr, hs1od]
    have hcount : 0 + (([] : List Record) ++ rck).length = 15 * k := by
      simpa using hrclen
    rw [hcount]
  · have hsess2 := hsess (by
      rw [hs1od]
      exact hne')
    rw [hsess2, hs1fn, hs1od, hpdeq]

/-- Claim C4: the cancellation flag is checked before each chunk dispatch;
if it is set before chunk `n` dispatches, with the earlier chunks already
merged (their calls succeeded and were not cancelled), no generation call is
made for chunk `n` or any later chunk (exactly the earlier chunks are
dispatched), and the run settles with the stopped outcome, the resumable
flag set to true, and no error. -/
theorem claim_C4_cancellation_stops_before_dispatch
    (gen : Nat → List Record → BatchResult) (cAt : Nat → Bool) (s : AppState)
    (pts : List Record) (n : Nat)
    (hk : n < (chunksOf15 pts).length)
    (hc : ∀ j, j < n → cAt j = false)
    (hcn : cAt n = true)
    (hg : ∀ j, j < n → ((gen j ((chunksOf15 pts).getD j [])).isSuccess = true)) :
    (runGenerationProcess gen cAt s pts).2 = (chunksOf15 pts).take n ∧
    ((runGenerationProcess gen cAt s pts).1).progressMessage = some stoppedMessage ∧
    ((runGenerationProcess gen cAt s pts).1).isResumable = true ∧
    ((runGenerationProcess gen cAt s pts).1).error = none := by
  have hchne : chunksOf15 pts ≠ [] :=
    List.ne_nil_of_length_pos (Nat.lt_of_le_of_lt (Nat.zero_le _) hk)
  have hne : pts ≠ [] := by
    intro habs
    exact hchne ((chunksOf15_eq_nil_iff _).mpr habs)
  have hne' : ¬ pts.isEmpty := by simpa [List.isEmpty_iff] using hne
  rw [runGenerationProcess_eq_runLoop gen cAt s pts hne']
  set s1 : AppState := { s with error := none, isResumable := false, progressMessage := some (processingMessage s.processedData.length s.originalData.length) } with hs1
  obtain ⟨sF, heq, hmsg, hres, herr, hfn, hod, hsess⟩ :=
    runLoop_cancel gen cAt n (chunksOf15 pts) 0 [] s.processedData.length 0 s1 hk
      (fun j hj => hc (0 + j) (by simpa using hj))
      (by simpa using hcn)
      (fun j hj => by
        have := hg j hj
        simpa using this)
      (ne_nil_of_mem_chunksOf15 pts)
  rw [heq]
  refine ⟨rfl, hmsg, hres, ?_⟩
  rw [herr]

/-- Claim C3: resume processes exactly the records of originalData whose key
is not yet present in processedData, in original order; no record with an
already-processed key is ever dispatched to the generation service; and
existing processed state is not cleared (every already-processed key of
originalData is still present afterwards). -/
theorem claim_C3_resume_processes_exactly_remaining
    (gen : Nat → List Record → BatchResult) (cAt : Nat → Bool) (s : AppState) :
    (∀ c ∈ (handleResume gen cAt s).2, ∀ p ∈ c,
      skuOf p ∉ s.processedData.map skuOf ∧ p ∈ s.originalData) ∧
    ((∀ i, cAt i = false) → (∀ i c, ((gen i c).isSuccess = true)) →
      ((handleResume gen cAt s).2).flatten =
        s.originalData.filter (fun p => !((s.processedData.map skuOf).contains (skuOf p)))) ∧
    (∀ key, key ∈ s.processedData.map skuOf → key ∈ s.originalData.map skuOf →
      key ∈ ((handleResume gen cAt s).1).processedData.map skuOf) := by
  set remaining := s.originalData.filter
    (fun p => !((s.processedData.map skuOf).contains (skuOf p))) with hremdef
  have hHR : handleResume gen cAt s = runGenerationProcess gen cAt s remaining := rfl
  have hmem_rem : ∀ p ∈ remaining,
      skuOf p ∉ s.processedData.map skuOf ∧ p ∈ s.originalData := by
    intro p hp
    rw [hremdef] at hp
    have h1 := List.mem_filter.mp hp
    refine ⟨?_, h1.1⟩
    have h2 := h1.2
    simpa using h2
  refine ⟨?_, ?_, ?_⟩
  · intro c hct p hpc
    rw [hHR] at hct
    by_cases hre : remaining.isEmpty
    · unfold runGenerationProcess at hct
      rw [if_pos hre] at hct
      simp at hct
    · rw [runGenerationProcess_eq_runLoop gen cAt s remaining hre] at hct
      have hcm := runLoop_trace_sub gen cAt _ _ _ _ _ _ c hct
      have hpr : p ∈ remaining := by
        rw [← flatten_chunksOf15 remaining]
        exact List.mem_flatten.mpr ⟨c, hcm, hpc⟩
      exact hmem_rem p hpr
  · intro hcall hsuc
    rw [hHR]
    by_cases hre : remaining.isEmpty
    · unfold runGenerationProcess
      rw [if_pos hre]
      rw [List.isEmpty_iff] at hre
      show ([] : List Record) = remaining
      exact hre.symm
    · rw [runGenerationProcess_eq_runLoop gen cAt s remaining hre]
      obtain ⟨sF, heq, -⟩ :=
        runLoop_allSuccess gen cAt (chunksOf15 remaining) 0 []
          s.processedData.length 0
          { s with error := none, isResumable := false, progressMessage := some (processingMessage s.processedData.length s.originalData.length) }
          (fun j _ => hcall (0 + j))
          (fun j _ => hsuc (0 + j) _)
          (ne_nil_of_mem_chunksOf15 remaining)
      rw [heq]
      exact flatten_chunksOf15 remaining
  · intro key h1 h2
    rw [hHR]
    by_cases hre : remaining.isEmpty
    · unfold runGenerationProcess
      rw [if_pos hre]
      exact h1
    · rw [runGenerationProcess_eq_runLoop gen cAt s remaining hre]
      exact runLoop_retains gen cAt _ _ _ _ _ _ key h1 h2

/-- Claim C7 (amended): the session blob is written on terminal settlement
of completed, stopped, and quota-exceeded runs, each time overwriting the
store with the current snapshot of fileName, originalData, processedData and
the resumable flag; the edit-sync effect that runs after a chunk merge
rewrites the blob only when a blob already exists in the store and the
processed view is non-empty, and writes nothing when the store is empty; a
run that settles with a non-quota failure writes nothing at settlement; and
the blob is removed on explicit dismissal. -/
theorem claim_C7_session_snapshot_write_rules :
    (∀ s : AppState, s.session = none → effectSync s = s) ∧
    (∀ s : AppState, s.session.isSome = true → s.processedData ≠ [] →
      (effectSync s).session =
        some ⟨s.fileName, s.originalData, s.processedData, s.isResumable⟩) ∧
    (∀ (gen : Nat → List Record → BatchResult) (cAt : Nat → Bool) (s : AppState),
      s.originalData ≠ [] → (∀ i, cAt i = false) →
      (∀ i c, ((gen i c).isSuccess = true)) →
      ((handleGenerate gen cAt s).1).session =
        some ⟨s.fileName, s.originalData, ((handleGenerate gen cAt s).1).processedData, false⟩) ∧
    (∀ (gen : Nat → List Record → BatchResult) (cAt : Nat → Bool) (s : AppState) (n : Nat),
      n < (chunksOf15 s.originalData).length →
      (∀ j, j < n → cAt j = false) → cAt n = true →
      (∀ j, j < n → ((gen j ((chunksOf15 s.originalData).getD j [])).isSuccess = true)) →
      ((handleGenerate gen cAt s).1).session =
        some ⟨s.fileName, s.originalData, ((handleGenerate gen cAt s).1).processedData, true⟩) ∧
    (∀ (gen : Nat → List Record → BatchResult) (cAt : Nat → Bool) (s : AppState) (k : Nat) (m : String),
      k < (chunksOf15 s.originalData).length →
      (∀ j, j ≤ k → cAt j = false) →
      (∀ j, j < k → ((gen j ((chunksOf15 s.originalData).getD j [])).isSuccess = true)) →
      gen k ((chunksOf15 s.originalData).getD k []) = .quotaFailure m →
      ((handleGenerate gen cAt s).1).session =
        some ⟨s.fileName, s.originalData, ((handleGenerate gen cAt s).1).processedData, true⟩) ∧
    (∀ (gen : Nat → List Record → BatchResult) (cAt : Nat → Bool) (s : AppState) (m : String),
      s.originalData ≠ [] → cAt 0 = false →
      gen 0 ((chunksOf15 s.originalData).getD 0 []) = .otherFailure m →
      ((handleGenerate gen cAt s).1).error = some m ∧
      ((handleGenerate gen cAt s).1).session = s.session) ∧
    (∀ s : AppState, (handleDismissSession s).session = none) := by
  refine ⟨?_, ?_, ?_, ?_, ?_, ?_, fun s => rfl⟩
  · intro s h
    unfold effectSync
    rw [if_neg]
    intro hcond
    rw [h] at hcond
    simp at hcond
  · intro s h1 h2
    unfold effectSync
    rw [if_pos ⟨h1, fun hh => h2 (List.isEmpty_iff.mp hh)⟩]
  · intro gen cAt s hne hcAt hgen
    have hne' : ¬ s.originalData.isEmpty := by simpa [List.isEmpty_iff] using hne
    rw [handleGenerate_eq_runLoop gen cAt s hne']
    obtain ⟨sF, heq, hfn, hod, -, -, -, -⟩ :=
      runLoop_allSuccess gen cAt (chunksOf15 s.originalData) 0 [] 0 0
        { s with processedData := [], error := none, isResumable := false, progressMessage := some (processingMessage 0 s.originalData.length) }
        (fun j _ => hcAt (0 + j))
        (fun j _ => hgen (0 + j) _)
        (ne_nil_of_mem_chunksOf15 s.originalData)
    rw [heq]
    obtain ⟨ss2, hss2, hval2⟩ := save_eq _ false
    rw [hss2]
    show ss2 = _
    have hodF : sF.originalData = s.originalData := hod
    have hfnF : sF.fileName = s.fileName := hfn
    rw [hval2 (by
      show ¬ sF.originalData.isEmpty
      rw [hodF]
      exact hne')]
    show some (⟨sF.fileName, sF.originalData, sF.processedData, false⟩ : SavedSession) = _
    rw [hodF, hfnF]
  · intro gen cAt s n hk hc hcn hg
    have hchne : chunksOf15 s.originalData ≠ [] :=
      List.ne_nil_of_length_pos (Nat.lt_of_le_of_lt (Nat.zero_le _) hk)
    have hne : s.originalData ≠ [] := by
      intro habs
      exact hchne ((chunksOf15_eq_nil_iff _).mpr habs)
    have hne' : ¬ s.originalData.isEmpty := by simpa [List.isEmpty_iff] using hne
    rw [handleGenerate_eq_runLoop gen cAt s hne']
    obtain ⟨sF, heq, -, -, -, -, -, hsess⟩ :=
      runLoop_cancel gen cAt n (chunksOf15 s.originalData) 0 [] 0 0
        { s with processedData := [], error := none, isResumable := false, progressMessage := some (processingMessage 0 s.originalData.length) }
        hk
        (fun j hj => hc (0 + j) (by simpa using hj))
        (by simpa using hcn)
        (fun j hj => by
          have := hg j hj
          simpa using this)
        (ne_nil_of_mem_chunksOf15 s.originalData)
    rw [heq]
    rw [hsess hne']
  · intro gen cAt s k m hk hc hg hq
    have hchne : chunksOf15 s.originalData ≠ [] :=
      List.ne_nil_of_length_pos (Nat.lt_of_le_of_lt (Nat.zero_le _) hk)
    have hne : s.originalData ≠ [] := by
      intro habs
      exact hchne ((chunksOf15_eq_nil_iff _).mpr habs)
    have hne' : ¬ s.originalData.isEmpty := by simpa [List.isEmpty_iff] using hne
    rw [handleGenerate_eq_runLoop gen cAt s hne']
    obtain ⟨sF, heq, -, -, -, -, -, hsess, -⟩ :=
      runLoop_quota gen cAt k (chunksOf15 s.originalData) 0 [] 0 0
        { s with processedData := [], error := none, isResumable := false, progressMessage := some (processingMessage 0 s.originalData.length) }
        m hk
        (fun j hj => hc (0 + j) (by simpa using hj))
        (fun j hj => by
          have := hg j hj
          simpa using this)
        (by simpa using hq)
        (ne_nil_of_mem_chunksOf15 s.originalData)
    rw [heq]
    rw [hsess hne']
  · intro gen cAt s m hne hc0 hgen0
    have hne' : ¬ s.originalData.isEmpty := by simpa [List.isEmpty_iff] using hne
    rw [handleGenerate_eq_runLoop gen cAt s hne']
    have hcons := chunksOf15_cons_eq s.originalData hne
    have hchunk : s.originalData.take 15 ≠ [] := by
      apply ne_nil_of_mem_chunksOf15 s.originalData
      rw [hcons]
      exact List.mem_cons_self _ _
    have hgen0' : gen 0 (s.originalData.take 15) = .otherFailure m := by
      rw [hcons] at hgen0
      simpa using hgen0
    rw [hcons, runLoop_fail_head gen cAt _ _ _ _ _ _ _ m hc0 hchunk hgen0']
    exact ⟨rfl, rfl⟩

/-- Counterexample to claim C7 as stated: a fresh run over one record that
settles with a non-quota failure is a terminal settlement after which no
session blob has been written (the store still holds nothing), so the
snapshot is not written on every terminal settlement. -/
theorem claim_C7_counterexample :
    ((handleGenerate (fun _ _ => BatchResult.otherFailure "boom") (fun _ => false)
      { fileName := "f.csv", originalData := [[("sku", "p1"), ("name", "n1")]], processedData := [], isResumable := false, error := none, progressMessage := none, session := none, regeneratingSkus := [] }).1).error = some "boom" ∧
    ((handleGenerate (fun _ _ => BatchResult.otherFailure "boom") (fun _ => false)
      { fileName := "f.csv", originalData := [[("sku", "p1"), ("name", "n1")]], processedData := [], isResumable := false, error := none, progressMessage := none, session := none, regeneratingSkus := [] }).1).session = none ∧
    effectSync { fileName := "f.csv", originalData := [[("sku", "p1"), ("name", "n1")]], processedData := [[("sku", "p1"), ("name", "n1"), ("Meta Title", "T"), ("Meta Description", "D")]], isResumable := false, error := none, progressMessage := none, session := none, regeneratingSkus := [] } =
      { fileName := "f.csv", originalData := [[("sku", "p1"), ("name", "n1")]], processedData := [[("sku", "p1"), ("name", "n1"), ("Meta Title", "T"), ("Meta Description", "D")]], isResumable := false, error := none, progressMessage := none, session := none, regeneratingSkus := [] } := by
  refine ⟨rfl, rfl, rfl⟩

/-! ### Concrete inputs and witness instances -/

set_option maxRecDepth 10000

/-- A concrete product row. -/
def wRec (i : Nat) : Record := [("sku", "p" ++ toString i), ("name", "n" ++ toString i)]

/-- Seventeen records, as in the reference quota scenario. -/
def wOd17 : List Record := (List.range 17).map (fun i => wRec (i + 1))

/-- Two records. -/
def wOd2 : List Record := [wRec 1, wRec 2]

/-- Four records. -/
def wOd4 : List Record := [wRec 1, wRec 2, wRec 3, wRec 4]

/-- A base state with the given data and an empty store. -/
def wState (od : List Record) (pd : List Record) : AppState :=
  ⟨"data.csv", od, pd, false, none, none, none, []⟩

/-- A service oracle that always succeeds, echoing each sku. -/
def wGenOk : Nat → List Record → BatchResult :=
  fun _ c => .success (c.map (fun p => ⟨skuOf p, "T", "D"⟩)) 7

/-- A service oracle that succeeds on chunk 0 and then exhausts the quota. -/
def wGenQuotaAfter1 : Nat → List Record → BatchResult :=
  fun i c => if i = 0 then .success (c.map (fun p => ⟨skuOf p, "T", "D"⟩)) 7
    else .quotaFailure "quota"

/-- A service oracle that always fails with a plain error. -/
def wGenFail : Nat → List Record → BatchResult := fun _ _ => .otherFailure "boom"

/-- A cancellation flag that is never set. -/
def wNever : Nat → Bool := fun _ => false

/-- A cancellation flag observed set from the check before chunk 1 on. -/
def wCancelAt1 : Nat → Bool := fun i => !(i == 0)

theorem claim_C1_witness :
    ((handleGenerate wGenQuotaAfter1 wNever (wState wOd17 [])).1).processedData.length = 15 * 1 ∧
    ((handleGenerate wGenQuotaAfter1 wNever (wState wOd17 [])).1).isResumable = true ∧
    ((handleGenerate wGenQuotaAfter1 wNever (wState wOd17 [])).1).error =
      some (quotaErrorMessage (15 * 1) (wState wOd17 []).originalData.length) ∧
    ((handleGenerate wGenQuotaAfter1 wNever (wState wOd17 [])).1).session =
      some ⟨(wState wOd17 []).fileName, (wState wOd17 []).originalData,
        ((handleGenerate wGenQuotaAfter1 wNever (wState wOd17 [])).1).processedData, true⟩ := by
  have h := claim_C1_quota_settles_with_successful_chunks wGenQuotaAfter1 wNever
    (wState wOd17 []) 1 "quota" (by decide) (by decide) (by decide)
    (fun j _ => rfl) (by decide) (by decide)
  exact ⟨h.2.1, h.2.2.1, h.2.2.2.1, h.2.2.2.2.1⟩

theorem claim_C2_witness :
    ((handleGenerate wGenOk wNever (wState wOd2 [])).1).processedData.map skuOf =
      (wState wOd2 []).originalData.map skuOf ∧
    ((handleGenerate wGenOk wNever (wState wOd2 [])).1).error = none ∧
    ((handleGenerate wGenOk wNever (wState wOd2 [])).1).isResumable = false := by
  have h := claim_C2_completed_run_covers_all_keys wGenOk wNever (wState wOd2 [])
    (by decide) (by decide) (by decide) (fun i => rfl) (by decide)
  exact ⟨h.1, h.2.2.2.1, h.2.2.2.2.1⟩

theorem claim_C3_witness :
    (skuOf (wRec 3) ∉ (wState wOd4 [wRec 1, wRec 2]).processedData.map skuOf ∧
      wRec 3 ∈ (wState wOd4 [wRec 1, wRec 2]).originalData) ∧
    ((handleResume wGenOk wNever (wState wOd4 [wRec 1, wRec 2])).2).flatten =
      (wState wOd4 [wRec 1, wRec 2]).originalData.filter
        (fun p => !(((wState wOd4 [wRec 1, wRec 2]).processedData.map skuOf).contains (skuOf p))) ∧
    "p1" ∈ ((handleResume wGenOk wNever (wState wOd4 [wRec 1, wRec 2])).1).processedData.map skuOf := by
  have h := claim_C3_resume_processes_exactly_remaining wGenOk wNever
    (wState wOd4 [wRec 1, wRec 2])
  refine ⟨?_, h.2.1 (fun i => rfl) (fun i c => rfl), h.2.2 "p1" (by decide) (by decide)⟩
  exact h.1 [wRec 3, wRec 4] (by decide) (wRec 3) (by decide)

theorem claim_C4_witness :
    (runGenerationProcess wGenOk wCancelAt1 (wState wOd17 []) wOd17).2 =
      (chunksOf15 wOd17).take 1 ∧
    ((runGenerationProcess wGenOk wCancelAt1 (wState wOd17 []) wOd17).1).progressMessage =
      some stoppedMessage ∧
    ((runGenerationProcess wGenOk wCancelAt1 (wState wOd17 []) wOd17).1).isResumable = true ∧
    ((runGenerationProcess wGenOk wCancelAt1 (wState wOd17 []) wOd17).1).error = none :=
  claim_C4_cancellation_stops_before_dispatch wGenOk wCancelAt1 (wState wOd17 []) wOd17 1
    (by decide) (by decide) (by decide) (by decide)

theorem claim_C5_witness :
    (batchFinalResults [[("sku", "a")], [("sku", "b")]] [⟨"a", "TA", "DA"⟩]).length =
      ([[("sku", "a")], [("sku", "b")]] : List Record).length ∧
    (batchFinalResults [[("sku", "a")], [("sku", "b")]] [⟨"a", "TA", "DA"⟩]).getD 1 default =
      ⟨"b", "Error: No AI Response",
        "The AI did not provide a response for this item in the batch."⟩ := by
  have h := claim_C5_batch_outcome_one_result_per_record
    [[("sku", "a")], [("sku", "b")]] [⟨"a", "TA", "DA"⟩]
  refine ⟨h.1, ?_⟩
  have h3 := h.2.2 1 (by decide) (by decide)
  exact h3.trans (by decide)

def wPdMeta : List Record :=
  [[("sku", "p1"), ("name", "n1"), ("Meta Title", "T1"), ("Meta Description", "D1")],
   [("sku", "p2"), ("name", "n2"), ("Meta Title", "T2"), ("Meta Description", "D2")]]

def wRow1 : Record := [("sku", "p1"), ("name", "n1"), ("Meta Title", "T1"), ("Meta Description", "D1")]

theorem claim_C6_witness :
    (handleRegenerateRow (.otherFailure "x") (wState wOd2 wPdMeta) wRow1).processedData.getD 1 [] =
      (wState wOd2 wPdMeta).processedData.getD 1 [] ∧
    getField ((handleRegenerateRow (.otherFailure "x") (wState wOd2 wPdMeta) wRow1).processedData.getD 0 []) "Meta Title" = "Error: Regeneration failed" ∧
    getField ((handleRegenerateRow (.otherFailure "x") (wState wOd2 wPdMeta) wRow1).processedData.getD 0 []) "name" =
      getField ((wState wOd2 wPdMeta).processedData.getD 0 []) "name" ∧
    (handleRegenerateRow (.quotaFailure "q") (wState wOd2 wPdMeta) wRow1).processedData =
      (wState wOd2 wPdMeta).processedData ∧
    skuOf wRow1 ∉ (handleRegenerateRow (.success ⟨"p1", "NT", "ND"⟩ 3) (wState wOd2 wPdMeta) wRow1).regeneratingSkus := by
  have h := claim_C6_regenerate_isolation (wState wOd2 wPdMeta) wRow1
  have h1 := (h.1 "x").2 1 (by decide)
  have h0 := (h.1 "x").2 0 (by decide)
  exact ⟨h1.1 (by decide), (h0.2 (by decide)).1, (h0.2 (by decide)).2.2 "name" (by decide) (by decide),
    h.2.2.1 "q", h.2.2.2 (.success ⟨"p1", "NT", "ND"⟩ 3)⟩

def wSess : SavedSession := ⟨"data.csv", wOd2, [wRec 1], true⟩

def wStateSess : AppState := ⟨"data.csv", wOd2, [wRec 1], true, none, none, some wSess, []⟩

theorem claim_C7_witness :
    effectSync (wState wOd2 []) = wState wOd2 [] ∧
    (effectSync wStateSess).session =
      some ⟨wStateSess.fileName, wStateSess.originalData, wStateSess.processedData, wStateSess.isResumable⟩ ∧
    ((handleGenerate wGenOk wNever (wState wOd2 [])).1).session =
      some ⟨"data.csv", wOd2, ((handleGenerate wGenOk wNever (wState wOd2 [])).1).processedData, false⟩ ∧
    ((handleGenerate wGenOk wCancelAt1 (wState wOd17 [])).1).session =
      some ⟨"data.csv", wOd17, ((handleGenerate wGenOk wCancelAt1 (wState wOd17 [])).1).processedData, true⟩ ∧
    ((handleGenerate wGenQuotaAfter1 wNever (wState wOd17 [])).1).session =
      some ⟨"data.csv", wOd17, ((handleGenerate wGenQuotaAfter1 wNever (wState wOd17 [])).1).processedData, true⟩ ∧
    (((handleGenerate wGenFail wNever (wState wOd2 [])).1).error = some "boom" ∧
      ((handleGenerate wGenFail wNever (wState wOd2 [])).1).session = (wState wOd2 []).session) ∧
    (handleDismissSession wStateSess).session = none := by
  have h := claim_C7_session_snapshot_write_rules
  refine ⟨h.1 _ rfl, h.2.1 _ (by decide) (by decide), ?_, ?_, ?_, ?_, h.2.2.2.2.2.2 _⟩
  · exact h.2.2.1 wGenOk wNever (wState wOd2 []) (by decide) (fun i => rfl) (fun i c => rfl)
  · exact h.2.2.2.1 wGenOk wCancelAt1 (wState wOd17 []) 1 (by decide) (by decide) (by decide) (by decide)
  · exact h.2.2.2.2.1 wGenQuotaAfter1 wNever (wState wOd17 []) 1 "quota" (by decide) (fun j _ => rfl) (by decide) (by decide)
  · exact h.2.2.2.2.2.1 wGenFail wNever (wState wOd2 []) "boom" (by decide) rfl (by decide)

theorem claim_C8_witness :
    stripGenerated (objSet [("sku", "a")] "Meta Title" "X") = stripGenerated [("sku", "a")] ∧
    batchRequestPayload (([[("sku", "a")], [("sku", "b")]] : List Record).map (fun p =>
      objSet (objSet p "Meta Title" "X") "Meta Description" "Y")) =
      batchRequestPayload [[("sku", "a")], [("sku", "b")]] ∧
    singleRequestPayload (objSet (objSet [("sku", "a")] "Meta Title" "X") "Meta Description" "Y") =
      singleRequestPayload [("sku", "a")] ∧
    (("sku", "a") : String × String).1 ≠ "Meta Title" ∧
    (("sku", "a") : String × String).1 ≠ "Meta Description" := by
  have h := claim_C8_prior_output_stripped_from_requests
  have h4 := h.2.2.2 [("sku", "a"), ("Meta Title", "T")] ("sku", "a") (by decide)
  exact ⟨h.1 [("sku", "a")] "Meta Title" "X" (Or.inl rfl),
    h.2.1 [[("sku", "a")], [("sku", "b")]] (fun _ => "X") (fun _ => "Y"),
    h.2.2.1 [("sku", "a")] "X" "Y", h4.1, h4.2⟩

theorem claim_C9_witness :
    getField (normalizeRow [("Article Number", "SKU1")]) "sku" = "SKU1" ∧
    validateUpload [[("Article Number", "SKU1"), ("Name", "")], [("Article Number", "S2"), ("Name", "N2")]] = .missingNameValue ∧
    validateUpload [[("sku", "s1"), ("name", "n1")], [("sku", ""), ("name", "")]] =
      .ok (normalizeData [[("sku", "s1"), ("name", "n1")], [("sku", ""), ("name", "")]]) ∧
    validateUpload [[("SKU", ""), ("name", "n")]] = .missingSkuValue := by
  have h := claim_C9_normalizer_and_first_row_validation
  refine ⟨h.1 "Article Number" "SKU1" (Or.inr (Or.inr (by decide))), ?_, ?_, ?_⟩
  · exact h.2.2.1 _ _ (by decide) (by decide) (by decide) (by decide)
  · exact h.2.2.2 _ _ (by decide) (by decide) (by decide) (by decide)
  · exact h.2.1 _ _ (by decide) (by decide) (by decide)

theorem claim_C10_witness :
    runGenerationProcess wGenOk wNever (wState wOd2 [wRec 1]) [] =
      ({ wState wOd2 [wRec 1] with error := none, isResumable := false, progressMessage := some allProcessedMessage }, []) ∧
    handleResume wGenOk wNever (wState wOd2 [wRec 1, wRec 2]) =
      ({ wState wOd2 [wRec 1, wRec 2] with error := none, isResumable := false, progressMessage := some allProcessedMessage }, []) := by
  have h := claim_C10_empty_work_settles_immediately
  exact ⟨h.1 wGenOk wNever (wState wOd2 [wRec 1]),
    h.2 wGenOk wNever (wState wOd2 [wRec 1, wRec 2]) (by decide)⟩

end Riva
